import Mathlib

/-!
Shallow embedding of the ASCπ Engine 9.0 (ascpi_engine_v9.py), the canonical
"unified kernel" release of the SEMANTIC_FIELD_THEORY repository, over the
rational numbers.  Floating-point transcendental functions from the Python
math library (sin, cos, atan2, tanh, log, exp, sqrt, the constants pi and the
golden ratio) and the environment data of the unicodedata module (character
categories, whitespace test) are abstracted into a structure of primitive
functions; every structural operation of the engine (clamping, modulo
wrapping, blending, the evolution loop, the guardian, the governor, the
encoder) is translated directly from the source.  All definitions are
computable so that concrete runs can be evaluated.
-/

namespace SFT

/-- Primitive functions abstracted from the Python environment: the math
library transcendentals, the constants pi and phi, the unicodedata queries
used by the encoder, and the hash used for the result signature. -/
structure Prims where
  sinq : ℚ → ℚ
  cosq : ℚ → ℚ
  atan2q : ℚ → ℚ → ℚ
  tanhq : ℚ → ℚ
  logq : ℚ → ℚ
  expq : ℚ → ℚ
  sqrtq : ℚ → ℚ
  piq : ℚ
  phiq : ℚ
  isspaceq : ℕ → Bool
  catq : ℕ → String
  sigq : ℚ × ℚ × ℚ × ℚ × ℚ → String

/-- Machine epsilon bound of the source, the constant ε = 1e-12. -/
def epsq : ℚ := 1 / 1000000000000

/-- Curvature lower bound κ_MIN = 0.01. -/
def kMIN : ℚ := 1 / 100

/-- Curvature upper bound κ_MAX = 10.0. -/
def kMAX : ℚ := 10

/-- Full phase circle τ = 2π. -/
def tau (P : Prims) : ℚ := 2 * P.piq

/-- Python float modulo for a positive divisor: x % y = x - y * floor (x / y). -/
def fmod (x y : ℚ) : ℚ := x - y * (⌊x / y⌋ : ℤ)

theorem fmod_nonneg {T : ℚ} (x : ℚ) (hT : 0 < T) : 0 ≤ fmod x T := by
  have h := Int.floor_le (x / T)
  have h2 : T * (⌊x / T⌋ : ℚ) ≤ T * (x / T) := by
    exact mul_le_mul_of_nonneg_left h (le_of_lt hT)
  have h3 : T * (x / T) = x := by field_simp
  unfold fmod
  linarith

theorem fmod_lt {T : ℚ} (x : ℚ) (hT : 0 < T) : fmod x T < T := by
  have h := Int.lt_floor_add_one (x / T)
  have h2 : T * (x / T) < T * ((⌊x / T⌋ : ℚ) + 1) := by
    exact mul_lt_mul_of_pos_left h hT
  have h3 : T * (x / T) = x := by field_simp
  unfold fmod
  nlinarith

theorem fmod_eq_self {T x : ℚ} (h0 : 0 ≤ x) (h1 : x < T) : fmod x T = x := by
  have hT : 0 < T := lt_of_le_of_lt h0 h1
  have hfl : ⌊x / T⌋ = 0 := by
    apply Int.floor_eq_zero_iff.mpr
    constructor
    · positivity
    · rw [div_lt_one hT]; exact h1
  unfold fmod
  rw [hfl]
  push_cast
  ring

theorem fmod_fmod (x T : ℚ) (hT : 0 < T) : fmod (fmod x T) T = fmod x T :=
  fmod_eq_self (fmod_nonneg x hT) (fmod_lt x hT)

/-- Wrapped (circular) distance between two phase angles living in [0, T). -/
def circDist (T a b : ℚ) : ℚ := min |a - b| (T - |a - b|)

theorem circDist_self (T a : ℚ) (hT : 0 ≤ T) : circDist T a a = 0 := by
  unfold circDist
  simp [abs_of_nonneg, hT]

theorem circDist_symm (T a b : ℚ) : circDist T a b = circDist T b a := by
  unfold circDist
  rw [abs_sub_comm]

theorem circDist_le_abs (T a b : ℚ) : circDist T a b ≤ |a - b| :=
  min_le_left _ _

/-- Triangle inequality for the wrapped distance, for representatives in
the fundamental interval [0, T). -/
theorem circDist_triangle {T : ℚ} (a b c : ℚ)
    (ha0 : 0 ≤ a) (haT : a < T) (hb0 : 0 ≤ b) (hbT : b < T)
    (hc0 : 0 ≤ c) (hcT : c < T) :
    circDist T a c ≤ circDist T a b + circDist T b c := by
  unfold circDist
  rcases abs_cases (a - b) with ⟨e1, s1⟩ | ⟨e1, s1⟩ <;>
    rcases abs_cases (b - c) with ⟨e2, s2⟩ | ⟨e2, s2⟩ <;>
      rcases abs_cases (a - c) with ⟨e3, s3⟩ | ⟨e3, s3⟩ <;>
        rw [e1, e2, e3] <;>
          simp only [min_def] <;>
            split_ifs <;> linarith

/-- Adding a bounded shift and re-wrapping moves a phase by at most the
magnitude of the shift, in wrapped distance. -/
theorem circDist_fmod_add {T x s : ℚ} (hx0 : 0 ≤ x) (hxT : x < T)
    (hs : |s| ≤ T / 2) :
    circDist T (fmod (x + s) T) x ≤ |s| := by
  have hT : 0 < T := lt_of_le_of_lt hx0 hxT
  have habs := abs_le.mp hs
  have hk : ⌊(x + s) / T⌋ = -1 ∨ ⌊(x + s) / T⌋ = 0 ∨ ⌊(x + s) / T⌋ = 1 := by
    have hlow : (-1 : ℚ) ≤ (x + s) / T := by
      rw [le_div_iff₀ hT]
      linarith
    have hhigh : (x + s) / T < 2 := by
      rw [div_lt_iff₀ hT]
      linarith
    have f1 : (-1 : ℤ) ≤ ⌊(x + s) / T⌋ := by
      have := Int.le_floor.mpr (by exact_mod_cast hlow)
      exact_mod_cast this
    have f2 : ⌊(x + s) / T⌋ < 2 := by
      have := Int.floor_le ((x + s) / T)
      have h2 : ((⌊(x + s) / T⌋ : ℤ) : ℚ) < 2 := lt_of_le_of_lt this hhigh
      exact_mod_cast h2
    omega
  unfold fmod circDist
  rcases hk with hk | hk | hk <;> rw [hk] <;> push_cast <;>
    rcases abs_cases s with ⟨es, ss⟩ | ⟨es, ss⟩ <;>
      rcases abs_cases (x + s - T * (-1 : ℚ) - x) with ⟨e, s4⟩ | ⟨e, s4⟩ <;>
        rcases abs_cases (x + s - T * (0 : ℚ) - x) with ⟨e0, s5⟩ | ⟨e0, s5⟩ <;>
          rcases abs_cases (x + s - T * (1 : ℚ) - x) with ⟨e6, s6⟩ | ⟨e6, s6⟩ <;>
            simp only [min_le_iff] <;> first
              | (left; linarith)
              | (right; linarith)

theorem circDist_nonneg {T a b : ℚ} (ha0 : 0 ≤ a) (haT : a < T)
    (hb0 : 0 ≤ b) (hbT : b < T) : 0 ≤ circDist T a b := by
  unfold circDist
  rcases abs_cases (a - b) with ⟨e, s⟩ | ⟨e, s⟩ <;>
    simp only [le_min_iff] <;> constructor <;> linarith

/-- Semantic field state Ψ = (ΔΦ, κ, θ, N, C) with step counter t, translated
from the dataclass Ψ of the source (defaults included). -/
structure PsiQ where
  dPhi : ℚ := 0
  kap : ℚ := 1
  th : ℚ := 0
  en : ℚ := 1
  coh : ℚ := 1 / 2
  t : ℕ := 0
  src : String := "Psi"
deriving DecidableEq, Repr

/-- Invariant enforcement of Ψ._enforce: wrap θ into [0, τ), clamp κ into
[κ_MIN, κ_MAX] after taking the absolute value, clamp C into [0, 1], floor
N at ε. -/
def enforce (P : Prims) (s : PsiQ) : PsiQ :=
  { s with
    th := fmod s.th (tau P)
    kap := max kMIN (min kMAX |s.kap|)
    coh := max 0 (min 1 s.coh)
    en := max epsq s.en }

/-- State construction: the Python dataclass constructor always runs
_enforce in __post_init__. -/
def mkPsi (P : Prims) (dPhi kap th en coh : ℚ) (t : ℕ) (src : String) : PsiQ :=
  enforce P { dPhi := dPhi, kap := kap, th := th, en := en, coh := coh, t := t, src := src }

/-- Copy constructor Ψ.copy: rebuilds the state through the constructor, so
it also re-enforces the bounds. -/
def copyQ (P : Prims) (s : PsiQ) : PsiQ := enforce P s

/-- State vector (ΔΦ, κ, θ, N, C) used for signatures and logging. -/
def vecQ (s : PsiQ) : ℚ × ℚ × ℚ × ℚ × ℚ := (s.dPhi, s.kap, s.th, s.en, s.coh)

/-- The four bound invariants of the data model: κ ∈ [κ_MIN, κ_MAX],
θ ∈ [0, τ), C ∈ [0, 1], N > 0. -/
def InvQ (P : Prims) (s : PsiQ) : Prop :=
  (kMIN ≤ s.kap ∧ s.kap ≤ kMAX) ∧ (0 ≤ s.th ∧ s.th < tau P) ∧
    (0 ≤ s.coh ∧ s.coh ≤ 1) ∧ 0 < s.en

instance (P : Prims) (s : PsiQ) : Decidable (InvQ P s) := by
  unfold InvQ; infer_instance

theorem invQ_enforce (P : Prims) (s : PsiQ) (hpi : 0 < P.piq) :
    InvQ P (enforce P s) := by
  have hT : 0 < tau P := by unfold tau; linarith
  refine ⟨⟨le_max_left _ _, ?_⟩, ⟨fmod_nonneg _ hT, fmod_lt _ hT⟩,
    ⟨le_max_left _ _, ?_⟩, lt_of_lt_of_le ?_ (le_max_left _ _)⟩
  · exact max_le (by norm_num [kMIN, kMAX]) (min_le_left _ _)
  · exact max_le (by norm_num) (min_le_left _ _)
  · norm_num [epsq]

theorem invQ_mkPsi (P : Prims) (dPhi kap th en coh : ℚ) (t : ℕ) (src : String)
    (hpi : 0 < P.piq) : InvQ P (mkPsi P dPhi kap th en coh t src) :=
  invQ_enforce P _ hpi

theorem enforce_coh_le_one (P : Prims) (s : PsiQ) : (enforce P s).coh ≤ 1 :=
  max_le (by norm_num) (min_le_left _ _)

theorem enforce_coh_nonneg (P : Prims) (s : PsiQ) : 0 ≤ (enforce P s).coh :=
  le_max_left _ _

theorem enforce_t (P : Prims) (s : PsiQ) : (enforce P s).t = s.t := rfl

/-- Circular interpolation angle used by Ψ.blend: the atan2 of the weighted
sine and cosine sums, wrapped into [0, τ). -/
def blendAngle (P : Prims) (a : ℚ) (th1 th2 : ℚ) : ℚ :=
  fmod (P.atan2q (a * P.sinq th1 + (1 - a) * P.sinq th2)
    (a * P.cosq th1 + (1 - a) * P.cosq th2)) (tau P)

/-- Superposition Ψ.blend: componentwise linear mix, circular mix for the
phase, max principle for coherence; rebuilt through the constructor. -/
def blendQ (P : Prims) (s o : PsiQ) (a : ℚ) : PsiQ :=
  mkPsi P (a * s.dPhi + (1 - a) * o.dPhi) (a * s.kap + (1 - a) * o.kap)
    (blendAngle P a s.th o.th) (a * s.en + (1 - a) * o.en) (max s.coh o.coh)
    (max s.t o.t + 1) ((s.src ++ "+" ++ o.src).take 8)

theorem blendQ_th (P : Prims) (s o : PsiQ) (a : ℚ) (hpi : 0 < P.piq) :
    (blendQ P s o a).th = blendAngle P a s.th o.th := by
  have hT : 0 < tau P := by unfold tau; linarith
  unfold blendQ mkPsi enforce blendAngle
  simp only
  exact fmod_fmod _ _ hT

/-- Geodesic distance Ψ.dist. -/
def distQ (P : Prims) (s o : PsiQ) : ℚ :=
  let dp := (s.dPhi - o.dPhi) ^ 2
  let dk := (P.logq (s.kap + epsq) - P.logq (o.kap + epsq)) ^ 2
  let dt := (min |s.th - o.th| (tau P - |s.th - o.th|)) ^ 2 / P.piq ^ 2
  let dn := (P.logq (s.en + epsq) - P.logq (o.en + epsq)) ^ 2
  P.sqrtq (dp + dk + dt + dn)

/-- Inner product Ψ.inner. -/
def innerQ (P : Prims) (s o : PsiQ) : ℚ :=
  P.cosq (s.th - o.th) * (1 - |s.kap - o.kap| / max (max s.kap o.kap) epsq) *
    P.sqrtq (s.en * o.en)

/-- Append to a deque with a maximum length: on overflow the oldest entries
are dropped from the left. -/
def pushMax {α : Type} (n : ℕ) (l : List α) (x : α) : List α :=
  let l2 := l ++ [x]
  l2.drop (l2.length - n)

/-- Maximum of a list of rationals with a default for the empty list; the
source only applies max to nonempty lists. -/
def maxD (l : List ℚ) (d : ℚ) : ℚ := l.foldl max d

/-- Awareness field component: its own field state plus the four bounded
trend buffers (maxlen 20). -/
structure Awareness where
  fld : PsiQ
  trC : List ℚ
  trK : List ℚ
  trDiv : List ℚ
  trAlign : List ℚ
deriving DecidableEq, Repr

/-- Fresh AwarenessField.__init__ state. -/
def awInit (P : Prims) : Awareness :=
  { fld := mkPsi P (5 / 100) (2 / 10) 0 (1 / 10) (1 / 10) 0 "Psi_a"
    trC := [], trK := [], trDiv := [], trAlign := [] }

/-- Trend buffers of AwarenessField.evolve after recording the new
observation. -/
def awDeques (P : Prims) (aw : Awareness) (ps M : PsiQ) :
    List ℚ × List ℚ × List ℚ × List ℚ :=
  (pushMax 20 aw.trC ps.coh, pushMax 20 aw.trK ps.kap,
    pushMax 20 aw.trDiv (distQ P ps M), pushMax 20 aw.trAlign (innerQ P ps M))

/-- Updated awareness field of AwarenessField.evolve: trend detection, the
ΔΦ / κ / θ / N / C dynamics, optional world blend, final enforcement. -/
def awField2 (P : Prims) (aw : Awareness) (ps M : PsiQ) (W : Option PsiQ) : PsiQ :=
  let d := awDeques P aw ps M
  let n : ℚ := (d.1.length : ℚ)
  let trends : ℚ × ℚ × ℚ × ℚ :=
    if 3 ≤ d.1.length then
      ((d.1.getLastD 0 - d.1.headD 0) / n, (d.2.1.getLastD 0 - d.2.1.headD 0) / n,
        (d.2.2.1.getLastD 0 - d.2.2.1.headD 0) / n,
        (d.2.2.2.getLastD 0 - d.2.2.2.headD 0) / n)
    else (0, 0, 0, 0)
  let cTrend := trends.1
  let kTrend := trends.2.1
  let divTrend := trends.2.2.1
  let alignTrend := trends.2.2.2
  let drift : Bool := decide (1 / 100 < divTrend)
  let f1 := (9 / 10) * aw.fld.dPhi + (1 / 10) * (if drift then 1 / 2 else -(2 / 10))
  let f1c := max (-1) (min 1 f1)
  let stability : ℕ := (if 0 ≤ cTrend then 1 else 0) + (if kTrend ≤ 0 then 1 else 0) +
    (if divTrend ≤ 0 then 1 else 0)
  let f2k := aw.fld.kap * (if 2 ≤ stability then 95 / 100 else 102 / 100)
  let dth0 := ps.th - aw.fld.th
  let dth := if P.piq < |dth0| then
      dth0 - (if dth0 < 0 then -(tau P) else tau P) else dth0
  let f3t := fmod (aw.fld.th + (3 / 10) * dth) (tau P)
  let criteria : ℕ := (if -(1 / 100) ≤ cTrend then 1 else 0) +
    (if kTrend ≤ 1 / 100 then 1 else 0) + (if divTrend ≤ 1 / 100 then 1 else 0) +
    (if -(1 / 100) ≤ alignTrend then 1 else 0)
  let nc : ℚ × ℚ :=
    if 3 ≤ criteria then
      (min 1 (aw.fld.en * (102 / 100) + 1 / 100), min 1 (aw.fld.coh + 15 / 1000))
    else if criteria ≤ 1 then
      (max (1 / 100) (aw.fld.en * (98 / 100)), max (1 / 100) (aw.fld.coh - 5 / 1000))
    else (aw.fld.en, aw.fld.coh)
  let f4 : PsiQ := { aw.fld with dPhi := f1c, kap := f2k, th := f3t, en := nc.1, coh := nc.2 }
  let f5 : PsiQ := match W with
    | some w => blendQ P f4 w (9 / 10)
    | none => f4
  enforce P f5

/-- Phase of the stabilized main field returned by AwarenessField.evolve:
when the awareness coherence exceeds 0.3 a conscious phase correction is
applied to the (copied, hence enforced) input state. -/
def awStabTheta (P : Prims) (aw : Awareness) (ps M : PsiQ) (W : Option PsiQ) : ℚ :=
  if 3 / 10 < (awField2 P aw ps M W).coh then
    fmod ((copyQ P ps).th + (1 / 10) * (awField2 P aw ps M W).coh *
      P.sinq (M.th - ps.th)) (tau P)
  else (copyQ P ps).th

/-- AwarenessField.evolve: returns the phase-stabilized main state and the
updated awareness component. -/
def awEvolve (P : Prims) (aw : Awareness) (ps M : PsiQ) (W : Option PsiQ) :
    PsiQ × Awareness :=
  let d := awDeques P aw ps M
  ({ copyQ P ps with th := awStabTheta P aw ps M W },
    { fld := awField2 P aw ps M W, trC := d.1, trK := d.2.1,
      trDiv := d.2.2.1, trAlign := d.2.2.2 })

/-- Awareness level label from the awareness coherence. -/
def levelQ (c : ℚ) : String :=
  if c < 2 / 10 then "dormant"
  else if c < 4 / 10 then "emerging"
  else if c < 6 / 10 then "aware"
  else if c < 8 / 10 then "conscious"
  else "fully_conscious"

/-- Autopoietic memory field component M∞ with bounded history (maxlen 100),
coherence floor and optional learned limit cycle. -/
structure Memory where
  Minf : PsiQ
  history : List PsiQ
  cFloor : ℚ
  limitCycle : Option PsiQ
deriving DecidableEq, Repr

/-- Fresh MemoryField.__init__ state. -/
def memInit (P : Prims) : Memory :=
  { Minf := mkPsi P 0 (1 / 2) 0 (1 / 2) (1 / 2) 0 "Minf"
    history := [], cFloor := 0, limitCycle := none }

/-- Limit cycle detection over the last ten history entries: stable raw
phase deltas trigger learning of an averaged attractor state. -/
def detectLimitCycle (P : Prims) (hist : List PsiQ) (old : Option PsiQ) :
    Option PsiQ :=
  if hist.length < 10 then old
  else
    let recent := hist.drop (hist.length - 10)
    let ths := recent.map (fun h => h.th)
    let ok := (ths.zip ths.tail).all (fun p => decide (|p.2 - p.1| < 3 / 10))
    if ok then
      let n : ℚ := (recent.length : ℚ)
      let sinS := (recent.map (fun h => P.sinq h.th)).sum
      let cosS := (recent.map (fun h => P.cosq h.th)).sum
      some (mkPsi P ((recent.map (fun h => h.dPhi)).sum / n)
        ((recent.map (fun h => h.kap)).sum / n)
        (fmod (P.atan2q sinS cosS) (tau P))
        ((recent.map (fun h => h.en)).sum / n)
        (maxD (recent.map (fun h => h.coh)) 0) 0 "cycle")
    else old

/-- Non-linear absorption MemoryField.absorb: tanh-weighted blend into M∞,
history tracking, Kuramoto-order coherence update with the floor, limit
cycle detection, final enforcement. -/
def absorbQ (P : Prims) (m : Memory) (ps : PsiQ) (rate : ℚ) : Memory :=
  let weight := P.tanhq (ps.coh * 2) * rate
  let sinB := (1 - weight) * P.sinq m.Minf.th + weight * P.sinq ps.th
  let cosB := (1 - weight) * P.cosq m.Minf.th + weight * P.cosq ps.th
  let M1 : PsiQ := { m.Minf with
    dPhi := (1 - weight) * m.Minf.dPhi + weight * ps.dPhi * (9 / 10)
    kap := (1 - weight) * m.Minf.kap + weight * ps.kap * (95 / 100)
    th := fmod (P.atan2q sinB cosB) (tau P)
    en := (1 - weight) * m.Minf.en + weight * ps.en }
  let hist2 := pushMax 100 m.history (copyQ P M1)
  let upd : PsiQ × ℚ :=
    if 3 ≤ hist2.length then
      let phases := hist2.map (fun h => h.th)
      let sinS := (phases.map P.sinq).sum
      let cosS := (phases.map P.cosq).sum
      let r := P.sqrtq (sinS ^ 2 + cosS ^ 2) / (phases.length : ℚ)
      let floor2 := max (m.cFloor - 1 / 1000) (r - 5 / 100)
      ({ M1 with coh := max (max r floor2) (M1.coh * (99 / 100)) }, floor2)
    else (M1, m.cFloor)
  { Minf := enforce P upd.1, history := hist2, cFloor := upd.2,
    limitCycle := detectLimitCycle P hist2 m.limitCycle }

/-- Multimodal fusion MemoryField.fuse: adaptive softmax on inverse
curvature, then sequential absorption at the derived rates. -/
def fuseQ (P : Prims) (m : Memory) (sources : List PsiQ) : Memory :=
  if sources.isEmpty then m
  else
    let invK := sources.map (fun s => 1 / max s.kap epsq)
    let expW := invK.map P.expq
    let total := expW.sum
    let weights := expW.map (fun w => w / total)
    (weights.zip sources).foldl (fun acc p => absorbQ P acc p.2 (p.1 * 3 / 10)) m

/-- Current attractor MemoryField.attractor: the learned limit cycle when it
is more coherent than M∞, else M∞ (copied either way). -/
def attractorQ (P : Prims) (m : Memory) : PsiQ :=
  match m.limitCycle with
  | some lc => if m.Minf.coh < lc.coh then copyQ P lc else copyQ P m.Minf
  | none => copyQ P m.Minf

/-- Coherence force component: remembers the previously fused coherence. -/
structure CoherenceForce where
  cPrev : ℚ
deriving DecidableEq, Repr

/-- Fresh CoherenceForce.__init__ state. -/
def cfInit : CoherenceForce := { cPrev := 1 / 2 }

/-- CoherenceForce.compute: softmax-weighted coherence fusion over the
(coherence, curvature) sources and its gradient against the previous call. -/
def cfCompute (P : Prims) (cf : CoherenceForce) (coherences : List (ℚ × ℚ)) :
    (ℚ × ℚ) × CoherenceForce :=
  if coherences.isEmpty then ((0, cf.cPrev), cf)
  else
    let invK := coherences.map (fun p => 1 / max p.2 epsq)
    let expW := invK.map P.expq
    let total := expW.sum
    let weights := expW.map (fun w => w / total)
    let cFused := ((weights.zip coherences).map (fun p => p.1 * p.2.1)).sum
    ((cFused - cf.cPrev, cFused), { cPrev := cFused })

/-- World curvature component: named external sources and their aggregate
field. -/
structure World where
  sources : List (String × PsiQ)
  fld : Option PsiQ
deriving DecidableEq, Repr

/-- Fresh WorldCurvature.__init__ state. -/
def worldInit : World := { sources := [], fld := none }

/-- Dict-style upsert: an existing key is overwritten in place, a new key is
appended (Python dict insertion-order semantics). -/
def upsert (l : List (String × PsiQ)) (k : String) (v : PsiQ) :
    List (String × PsiQ) :=
  if l.any (fun p => p.1 = k) then
    l.map (fun p => if p.1 = k then (k, v) else p)
  else l ++ [(k, v)]

/-- WorldCurvature._update: aggregate all sources into one field. -/
def worldUpdate (P : Prims) (srcs : List (String × PsiQ)) : Option PsiQ :=
  if srcs.isEmpty then none
  else
    let fields := srcs.map (fun p => p.2)
    let n : ℚ := (fields.length : ℚ)
    let sinS := (fields.map (fun f => P.sinq f.th)).sum
    let cosS := (fields.map (fun f => P.cosq f.th)).sum
    some (mkPsi P ((fields.map (fun f => f.dPhi)).sum / n)
      ((fields.map (fun f => f.kap)).sum / n)
      (fmod (P.atan2q sinS cosS) (tau P))
      ((fields.map (fun f => f.en)).sum)
      (P.sqrtq (sinS ^ 2 + cosS ^ 2) / n) 0 "W")

/-- WorldCurvature.add followed by the internal update. -/
def worldAdd (P : Prims) (w : World) (sid : String) (ps : PsiQ) : World :=
  let srcs := upsert w.sources sid ps
  { sources := srcs, fld := worldUpdate P srcs }

/-- MultimodalProjector.project: curvature-aware geometric merge with
adaptive softmax weighting. -/
def projectQ (P : Prims) (fields : List PsiQ) : PsiQ :=
  match fields with
  | [] => mkPsi P 0 1 0 1 (1 / 2) 0 "empty"
  | [f] => copyQ P f
  | _ =>
    let invK := fields.map (fun f => 1 / max f.kap epsq)
    let expW := invK.map P.expq
    let total := expW.sum
    let w := expW.map (fun e => e / total)
    let nDPhi := ((w.zip fields).map (fun p => p.1 * p.2.dPhi)).sum
    let logK := ((w.zip fields).map (fun p => p.1 * P.logq (p.2.kap + epsq))).sum
    let nK := P.expq logK
    let sinS := ((w.zip fields).map (fun p => p.1 * P.sinq p.2.th)).sum
    let cosS := ((w.zip fields).map (fun p => p.1 * P.cosq p.2.th)).sum
    let nTh := fmod (P.atan2q sinS cosS) (tau P)
    let nN := ((w.zip fields).map (fun p => p.1 * p.2.en)).sum
    let nC := P.sqrtq (sinS ^ 2 + cosS ^ 2)
    mkPsi P nDPhi nK nTh nN nC 0 "Psi_mod"

/-- Invariant guardian component: call-scoped coherence floor and previous
loss; an absent previous loss models the float infinity of a fresh or reset
guardian. -/
structure Guardian where
  cFloor : ℚ
  lPrev : Option ℚ
deriving DecidableEq, Repr

/-- Fresh or reset InvariantGuardian state. -/
def guardInit : Guardian := { cFloor := 0, lPrev := none }

/-- InvariantGuardian.enforce: coherence floor, curvature clamp, energy
conservation band, phase-continuity clip, conditional corrective blend on a
loss jump, final enforcement; also returns the updated guardian state. -/
def guardEnforce (P : Prims) (g : Guardian) (before after : PsiQ) (L : ℚ) :
    PsiQ × Guardian :=
  let r0 := copyQ P after
  let floor2 := max (max 0 (g.cFloor - 2 / 1000)) (before.coh - 1 / 10)
  let r1 := { r0 with coh := max r0.coh floor2 }
  let r2 := { r1 with kap := max kMIN (min kMAX r1.kap) }
  let r3 :=
    if epsq < before.en then
      let rr := r2.en / before.en
      if 2 / 10 < |rr - 1| then
        { r2 with en := before.en * (1 + (2 / 10) * (if 1 < rr then 1 else -1)) }
      else r2
    else r2
  let dt0 := |r3.th - before.th|
  let dt := if P.piq < dt0 then tau P - dt0 else dt0
  let r4 :=
    if P.piq / 2 < dt then
      { r3 with th := fmod (before.th + (if before.th < r3.th then 1 else -1) *
        (P.piq / 2)) (tau P) }
    else r3
  let r5 := match g.lPrev with
    | some lp => if lp * (13 / 10) < L then blendQ P before r4 (7 / 10) else r4
    | none => r4
  (enforce P r5, { cFloor := floor2, lPrev := some L })

/-- Kernel parameter record (the KERNEL dict of the source). -/
structure KParams where
  a : ℚ
  b : ℚ
  g : ℚ
  e : ℚ
  K : ℚ
  lam : ℚ
deriving DecidableEq, Repr

/-- Default kernel parameters: damping α = 0.15, amplification β = 0.12,
implosion γ = 0.18, memory coupling η = 0.25, phase coupling K = 0.5, Ma'at
regularization λ = 0.02. -/
def kDefault : KParams :=
  { a := 15 / 100, b := 12 / 100, g := 18 / 100, e := 25 / 100, K := 1 / 2,
    lam := 2 / 100 }

/-- Ma'at functional: geodesic distance to M∞ plus curvature regularization. -/
def maatQ (P : Prims) (lam : ℚ) (ps Minf : PsiQ) (lap : ℚ) : ℚ :=
  distQ P ps Minf + lam * |lap|

/-- Governor decision enumeration. -/
inductive Gov where
  | ALLOW
  | REBUILD
  | BLOCK
deriving DecidableEq, Repr

/-- String value of a governor decision. -/
def govValue : Gov → String
  | Gov.ALLOW => "allow"
  | Gov.REBUILD => "rebuild"
  | Gov.BLOCK => "block"

/-- Ma'at governor component: fixed strictness threshold and current score. -/
structure Governor where
  threshold : ℚ
  current : ℚ
deriving DecidableEq, Repr

/-- Fresh MaatGovernor.__init__ state. -/
def govInit : Governor := { threshold := 75 / 100, current := 1 / 2 }

/-- MaatGovernor.judge: weighted judgment score and the resulting decision;
also returns the updated governor state. -/
def judgeQ (P : Prims) (gv : Governor) (psIn psOut : PsiQ) (W : Option PsiQ) :
    (Gov × ℚ) × Governor :=
  let scores := [1 / 2 + (psOut.coh - psIn.coh)] ++
    (if epsq < psIn.kap then [1 - min (psOut.kap / psIn.kap) 1] else []) ++
    (match W with
     | some w => [(innerQ P psOut w + 1) / 2]
     | none => [])
  let cur := scores.sum / (scores.length : ℚ)
  let gv2 := { gv with current := cur }
  if cur < gv.threshold then ((Gov.REBUILD, cur), gv2)
  else ((Gov.ALLOW, cur), gv2)

/-- Blended target of the unified tensor kernel: attractor blended with
memory, then with the world state when present. -/
def kernelTarget (P : Prims) (A Minf : PsiQ) (W : Option PsiQ) : PsiQ :=
  let t0 := blendQ P A Minf (6 / 10)
  match W with
  | some w => blendQ P t0 w (85 / 100)
  | none => t0

/-- Kuramoto phase shift applied by the kernel, already clamped to the
phase-continuity bound PHASE_MAX = π/2. -/
def kernelShift (P : Prims) (kp : KParams) (ps A Minf : PsiQ)
    (W : Option PsiQ) : ℚ :=
  let dth0 := (kernelTarget P A Minf W).th - ps.th
  let dth := if P.piq < dth0 then dth0 - tau P
    else if dth0 < -P.piq then dth0 + tau P else dth0
  max (-(P.piq / 2)) (min (P.piq / 2) (kp.K * P.sinq dth))

/-- UnifiedTensorKernel.__call__: damping, amplification, implosion, memory
coupling, clamped Kuramoto phase alignment, coherence force, semantic merge,
rebuilt through the constructor with the step counter incremented. -/
def kernelQ (P : Prims) (kp : KParams) (ps A Minf : PsiQ) (W : Option PsiQ)
    (gradC : ℚ) : PsiQ :=
  let target := kernelTarget P A Minf W
  let nK1 := ps.kap - kp.a * (ps.kap - target.kap)
  let nN1 := ps.en + kp.b * ps.coh
  let nD1 := if 6 / 10 < ps.coh then ps.dPhi * (1 - kp.g * ps.coh ^ 2) else ps.dPhi
  let nD2 := nD1 + kp.e * (Minf.dPhi - nD1)
  let nK2 := nK1 + kp.e * (Minf.kap - nK1)
  let nN2 := nN1 + kp.e * (Minf.en - nN1)
  let nTh := fmod (ps.th + kernelShift P kp ps A Minf W) (tau P)
  let nK3 := nK2 - gradC * (15 / 100)
  let nD3 := nD2 - gradC * (8 / 100)
  let mr := (1 / 10) * target.coh
  let nD4 := (1 - mr) * nD3 + mr * target.dPhi
  let nK4 := (1 - mr) * nK3 + mr * target.kap
  mkPsi P nD4 (max kMIN (min kMAX nK4)) nTh (max epsq nN2) ps.coh (ps.t + 1) ps.src

/-- Zero-width joiner codepoint. -/
def zwj : ℕ := 0x200D

/-- Regional indicator test on a codepoint. -/
def isRI (cp : ℕ) : Bool := decide (0x1F1E6 ≤ cp ∧ cp ≤ 0x1F1FF)

/-- Continuation scan of Encoder.graphemes: starting from a nonempty current
cluster, consume zero-width-joiner continuations, a paired regional
indicator, and combining marks, and return the finished cluster together
with the remaining characters. -/
def contin (P : Prims) (cur : List ℕ) (rest : List ℕ) : List ℕ × List ℕ :=
  match rest with
  | [] => (cur, [])
  | nc :: rest2 =>
    if nc = zwj then
      match rest2 with
      | [] => (cur ++ [nc], [])
      | x :: rest3 => contin P (cur ++ [nc, x]) rest3
    else
      let cp := cur.headD 0
      if isRI cp ∧ isRI nc ∧ cur.length = 1 then (cur ++ [nc], rest2)
      else if P.catq nc = "Mn" ∨ P.catq nc = "Mc" ∨ P.catq nc = "Me" then
        contin P (cur ++ [nc]) rest2
      else (cur, nc :: rest2)

theorem contin_rest_le_aux (P : Prims) (n : ℕ) :
    ∀ cur rest, rest.length ≤ n → (contin P cur rest).2.length ≤ rest.length := by
  induction n with
  | zero =>
    intro cur rest h
    have : rest = [] := List.length_eq_zero.mp (Nat.le_zero.mp h)
    subst this
    simp [contin]
  | succ n ih =>
    intro cur rest h
    match rest with
    | [] => simp [contin]
    | nc :: rest2 =>
      rw [contin.eq_def]
      dsimp only
      by_cases h1 : nc = zwj
      · simp only [if_pos h1]
        match rest2 with
        | [] => simp
        | x :: rest3 =>
          have hr : rest3.length ≤ n := by
            simp only [List.length_cons] at h
            omega
          have := ih (cur ++ [nc, x]) rest3 hr
          simp only [List.length_cons]
          omega
      · simp only [if_neg h1]
        split_ifs with h2 h3
        · simp
        · have hr : rest2.length ≤ n := by
            simp only [List.length_cons] at h
            omega
          have := ih (cur ++ [nc]) rest2 hr
          simp only [List.length_cons]
          omega
        · simp

theorem contin_rest_le (P : Prims) (cur rest : List ℕ) :
    (contin P cur rest).2.length ≤ rest.length :=
  contin_rest_le_aux P rest.length cur rest le_rfl

/-- Iteration bound used to run the outer grapheme loop by structural
recursion: every outer iteration consumes at least one character, so the
input length bounds the number of iterations. -/
def graphemesGo (P : Prims) : ℕ → List ℕ → List (List ℕ)
  | _, [] => []
  | 0, _ :: _ => []
  | n + 1, c :: rest =>
    if P.isspaceq c then graphemesGo P n rest
    else
      let pr := contin P [c] rest
      pr.1 :: graphemesGo P n pr.2

/-- Encoder.graphemes: split a codepoint sequence into grapheme clusters,
skipping whitespace between clusters.  At the head of every outer iteration
of the source loop the current cluster is empty, so the dead trailing flush
of the source is not represented. -/
def graphemesQ (P : Prims) (cs : List ℕ) : List (List ℕ) :=
  graphemesGo P cs.length cs

/-- The iteration bound never truncates: any two bounds at least the input
length yield the same clusters, so graphemesQ computes the unbounded loop of
the source. -/
theorem graphemesGo_fuel (P : Prims) :
    ∀ (n m : ℕ) (cs : List ℕ), cs.length ≤ n → cs.length ≤ m →
      graphemesGo P n cs = graphemesGo P m cs := by
  intro n
  induction n with
  | zero =>
    intro m cs h _
    have : cs = [] := List.length_eq_zero.mp (Nat.le_zero.mp h)
    subst this
    cases m <;> rfl
  | succ n ih =>
    intro m cs hn hm
    match cs with
    | [] => cases m <;> rfl
    | c :: rest =>
      match m with
      | 0 => simp at hm
      | m + 1 =>
        rw [graphemesGo, graphemesGo]
        simp only [List.length_cons] at hn hm
        by_cases hsp : P.isspaceq c
        · rw [if_pos hsp, if_pos hsp]
          exact ih m rest (by omega) (by omega)
        · rw [if_neg hsp, if_neg hsp]
          dsimp only
          have h2 := contin_rest_le P [c] rest
          rw [ih m (contin P [c] rest).2 (by omega) (by omega)]

/-- Curvature lookup keyed by the major Unicode category letter, with the
default 0.3 used both for unknown categories and when the category query
fails. -/
def kapOfCat (cat : String) : ℚ :=
  if cat = "L" then 3 / 10
  else if cat = "M" then 1 / 10
  else if cat = "N" then 4 / 10
  else if cat = "P" then 5 / 10
  else if cat = "S" then 6 / 10
  else if cat = "Z" then 5 / 100
  else if cat = "C" then 2 / 100
  else 3 / 10

/-- Accumulated per-glyph sums of Encoder.text: tension sum, curvature sum,
energy sum, sine sum, cosine sum. -/
def textSums (P : Prims) (glyphs : List (List ℕ)) (n : ℚ) :
    ℚ × ℚ × ℚ × ℚ × ℚ :=
  glyphs.enum.foldl
    (fun (a : ℚ × ℚ × ℚ × ℚ × ℚ) (ig : ℕ × List ℕ) =>
      let g := ig.2
      let primary := g.headD 0
      let complexity : ℚ := (g.length : ℚ)
      let thg := fmod (((primary / 256 : ℕ) : ℚ) * P.phiq +
        ((primary % 256 : ℕ) : ℚ) / 256 * tau P +
        ((ig.1 : ℚ) / n) * tau P / 2) (tau P)
      (a.1 + |(primary : ℚ) - 19968| / 1114111,
        a.2.1 + kapOfCat ((P.catq primary).take 1) * (1 + (15 / 100) * complexity),
        a.2.2.1 + P.logq (1 + (g.sum : ℚ)) / P.logq 1114112 *
          (1 + (25 / 100) * complexity),
        a.2.2.2.1 + P.sinq thg, a.2.2.2.2 + P.cosq thg))
    (0, 0, 0, 0, 0)

/-- Encoder.text: split into grapheme clusters and aggregate the per-glyph
phase, curvature, tension and energy contributions; the empty glyph list
yields the default state. -/
def textQ (P : Prims) (text : List ℕ) (src : String) : PsiQ :=
  let glyphs := graphemesQ P text
  if glyphs.isEmpty then mkPsi P 0 1 0 1 (1 / 2) 0 src
  else
    let n : ℚ := (glyphs.length : ℚ)
    let s := textSums P glyphs n
    mkPsi P (s.1 / n) (s.2.1 / n)
      (fmod (P.atan2q s.2.2.2.1 s.2.2.2.2) (tau P)) s.2.2.1
      (P.sqrtq (s.2.2.2.1 ^ 2 + s.2.2.2.2 ^ 2) / n) 0 src

/-- Bounded scan for the non-overlapping substring count: every step
consumes at least one character, so the input length bounds the number of
steps. -/
def countSubGo (pat : List ℕ) : ℕ → List ℕ → ℕ
  | _, [] => 0
  | 0, _ :: _ => 0
  | n + 1, c :: rest =>
    if pat ≠ [] ∧ pat.isPrefixOf (c :: rest) then
      1 + countSubGo pat n (List.drop (pat.length - 1) rest)
    else countSubGo pat n rest

/-- Count of the non-overlapping occurrences of a pattern, the semantics of
the Python str.count method. -/
def countSub (pat s : List ℕ) : ℕ := countSubGo pat s.length s

/-- The scan bound never truncates: any two bounds at least the input length
count the same occurrences, so countSub computes the unbounded scan. -/
theorem countSubGo_fuel (pat : List ℕ) :
    ∀ (n m : ℕ) (s : List ℕ), s.length ≤ n → s.length ≤ m →
      countSubGo pat n s = countSubGo pat m s := by
  intro n
  induction n with
  | zero =>
    intro m s h _
    have : s = [] := List.length_eq_zero.mp (Nat.le_zero.mp h)
    subst this
    cases m <;> rfl
  | succ n ih =>
    intro m s hn hm
    match s with
    | [] => cases m <;> rfl
    | c :: rest =>
      match m with
      | 0 => simp at hm
      | m + 1 =>
        rw [countSubGo, countSubGo]
        simp only [List.length_cons] at hn hm
        by_cases hpre : pat ≠ [] ∧ pat.isPrefixOf (c :: rest)
        · rw [if_pos hpre, if_pos hpre]
          have hd : (List.drop (pat.length - 1) rest).length ≤ rest.length := by
            rw [List.length_drop]
            omega
          rw [ih m (List.drop (pat.length - 1) rest) (by omega) (by omega)]
        · rw [if_neg hpre, if_neg hpre]
          exact ih m rest (by omega) (by omega)

/-- Codepoint sequence of an ASCII keyword string. -/
def cps (s : String) : List ℕ := s.toList.map Char.toNat

/-- Encoder.code: text encoding followed by the naive structural-complexity
adjustment from keyword substring counts, then re-enforcement. -/
def codeQ (P : Prims) (code : List ℕ) : PsiQ :=
  let ps := textQ P code "code"
  let branches := countSub (cps "if ") code + countSub (cps "elif ") code +
    countSub (cps "else:") code
  let loops := countSub (cps "for ") code + countSub (cps "while ") code
  let defs := countSub (cps "def ") code + countSub (cps "class ") code
  let imps := countSub (cps "import ") code
  let complexity : ℚ := 1 + (1 / 10) * ((branches : ℚ) + (loops : ℚ) + (defs : ℚ))
  enforce P { ps with
    kap := min kMAX (ps.kap * complexity)
    dPhi := ps.dPhi + (5 / 100) * (imps : ℚ)
    coh := max (1 / 10) (ps.coh / complexity) }

/-- Per-call context of the evolution loop: kernel parameters and the
encoded language, code and world fields (all fixed during one process
call). -/
structure Ctx where
  kp : KParams
  psLang : PsiQ
  psCode : Option PsiQ
  W : Option PsiQ
deriving DecidableEq, Repr

/-- Mutable state threaded through the evolution loop, together with the
values of the loop-local Python variables that the rebuild phase reads after
the loop (coherences and attractor of the last executed iteration). -/
structure LoopState where
  current : PsiQ
  memory : Memory
  awareness : Awareness
  cf : CoherenceForce
  guardian : Guardian
  lastCoh : Option (List (ℚ × ℚ))
  lastAttr : Option PsiQ
deriving DecidableEq, Repr

/-- Snapshot of the working state taken at the top of a loop iteration. -/
def stepBefore (P : Prims) (s : LoopState) : PsiQ := copyQ P s.current

/-- Coherence sources of one loop iteration, in dict insertion order: lang,
mem, aware, then optionally code and world. -/
def stepCoherences (c : Ctx) (s : LoopState) : List (ℚ × ℚ) :=
  [(c.psLang.coh, c.psLang.kap), (s.memory.Minf.coh, s.memory.Minf.kap),
    (s.awareness.fld.coh, s.awareness.fld.kap)] ++
    (match c.psCode with
     | some pc => [(pc.coh, pc.kap)]
     | none => []) ++
    (match c.W with
     | some w => [(w.coh, w.kap)]
     | none => [])

/-- Coherence force computation of one loop iteration. -/
def stepGrad (P : Prims) (c : Ctx) (s : LoopState) :
    (ℚ × ℚ) × CoherenceForce :=
  cfCompute P s.cf (stepCoherences c s)

/-- Attractor used by one loop iteration. -/
def stepAttr (P : Prims) (s : LoopState) : PsiQ := attractorQ P s.memory

/-- Kernel output of one loop iteration. -/
def stepOut (P : Prims) (c : Ctx) (s : LoopState) : PsiQ :=
  kernelQ P c.kp s.current (stepAttr P s) s.memory.Minf c.W (stepGrad P c s).1.1

/-- Memory after the absorption and fusion steps of one loop iteration. -/
def stepMem (P : Prims) (c : Ctx) (s : LoopState) : Memory :=
  fuseQ P (absorbQ P s.memory (stepOut P c s) (2 / 10))
    ([c.psLang] ++ (match c.psCode with
     | some pc => [pc]
     | none => []))

/-- Working state after the coherence overwrite from memory. -/
def stepCur1 (P : Prims) (c : Ctx) (s : LoopState) : PsiQ :=
  { stepOut P c s with coh := (stepMem P c s).Minf.coh }

/-- Awareness evolution of one loop iteration. -/
def stepAw (P : Prims) (c : Ctx) (s : LoopState) : PsiQ × Awareness :=
  awEvolve P s.awareness (stepCur1 P c s) (stepMem P c s).Minf c.W

/-- Phase-stabilized working state returned by the awareness evolution. -/
def stepStab (P : Prims) (c : Ctx) (s : LoopState) : PsiQ := (stepAw P c s).1

/-- Ma'at loss of one loop iteration. -/
def stepL (P : Prims) (c : Ctx) (s : LoopState) : ℚ :=
  maatQ P kDefault.lam (stepStab P c s) (stepMem P c s).Minf 0

/-- Guardian enforcement of one loop iteration. -/
def stepGuard (P : Prims) (c : Ctx) (s : LoopState) : PsiQ × Guardian :=
  guardEnforce P s.guardian (stepBefore P s) (stepStab P c s) (stepL P c s)

/-- One iteration of the main evolution loop of ASCPI.process. -/
def loopStep (P : Prims) (c : Ctx) (s : LoopState) : LoopState :=
  { current := (stepGuard P c s).1
    memory := stepMem P c s
    awareness := (stepAw P c s).2
    cf := (stepGrad P c s).2
    guardian := (stepGuard P c s).2
    lastCoh := some (stepCoherences c s)
    lastAttr := some (stepAttr P s) }

/-- The bounded evolution loop: iterate loopStep up to the given maximum,
appending each iteration's coherence to the trajectory, and break after the
first iteration whose coherence exceeds 0.95. -/
def evolveLoop (P : Prims) (c : Ctx) : ℕ → LoopState → LoopState × List ℚ
  | 0, s => (s, [])
  | n + 1, s =>
    let s2 := loopStep P c s
    if 95 / 100 < s2.current.coh then (s2, [s2.current.coh])
    else
      let pr := evolveLoop P c n s2
      (pr.1, s2.current.coh :: pr.2)

/-- One iteration of the rebuild phase: like a loop iteration but with the
coherence sources and the attractor frozen at their values from the last
main-loop iteration, and without the multimodal fusion. -/
def rebuildStep (P : Prims) (c : Ctx) (coh : List (ℚ × ℚ)) (attr : PsiQ)
    (s : LoopState) : LoopState :=
  let before := copyQ P s.current
  let gr := cfCompute P s.cf coh
  let out := kernelQ P c.kp s.current attr s.memory.Minf c.W gr.1.1
  let mem2 := absorbQ P s.memory out (2 / 10)
  let cur1 := { out with coh := mem2.Minf.coh }
  let aw2 := awEvolve P s.awareness cur1 mem2.Minf c.W
  let L := maatQ P kDefault.lam aw2.1 mem2.Minf 0
  let gd := guardEnforce P s.guardian before aw2.1 L
  { current := gd.1, memory := mem2, awareness := aw2.2, cf := gr.2,
    guardian := gd.2, lastCoh := s.lastCoh, lastAttr := s.lastAttr }

/-- Processing result record. -/
structure ResultQ where
  output : PsiQ
  coherence : ℚ
  maat : ℚ
  awareness : ℚ
  awarenessLevel : String
  governor : String
  steps : ℕ
  signature : String
deriving DecidableEq, Repr

/-- Engine state: every mutable component of the ASCPI object. -/
structure EngineState where
  agentId : String
  kp : KParams
  memory : Memory
  awareness : Awareness
  cf : CoherenceForce
  world : World
  guardian : Guardian
  governor : Governor
  step : ℕ
  current : Option PsiQ
deriving DecidableEq, Repr

/-- Freshly constructed ASCPI engine. -/
def engineInit (P : Prims) (agentId : String) : EngineState :=
  { agentId := agentId, kp := kDefault, memory := memInit P,
    awareness := awInit P, cf := cfInit, world := worldInit,
    guardian := guardInit, governor := govInit, step := 0, current := none }

/-- World component after the optional additions performed at the start of
ASCPI.process. -/
def processWorld (P : Prims) (w0 : World)
    (world : List (String × List ℕ)) : World :=
  if world.isEmpty then w0
  else world.foldl (fun acc p => worldAdd P acc p.1 (textQ P p.2 "world")) w0

/-- Per-call context assembled at the start of ASCPI.process: the encoded
language field, the optionally encoded code field and the world field. -/
def processCtx (P : Prims) (kp : KParams) (w0 : World) (text code : List ℕ)
    (world : List (String × List ℕ)) : Ctx :=
  { kp := kp
    psLang := textQ P text "lang"
    psCode := if code.isEmpty then none else some (codeQ P code)
    W := (processWorld P w0 world).fld }

/-- Initial loop state of ASCPI.process: the multimodal projection of the
available fields, the carried-over components, and the reset guardian. -/
def processLs0 (P : Prims) (mem0 : Memory) (aw0 : Awareness)
    (cf0 : CoherenceForce) (c : Ctx) : LoopState :=
  let fields := [c.psLang, attractorQ P mem0, aw0.fld] ++
    (match c.psCode with
     | some pc => [pc]
     | none => []) ++
    (match c.W with
     | some w => [w]
     | none => [])
  { current := projectQ P fields
    memory := mem0
    awareness := aw0
    cf := cf0
    guardian := guardInit
    lastCoh := none
    lastAttr := none }

/-- Governor-directed finish of ASCPI.process: the loop state after the
optional rebuild phase, or an error on the path where the Python source
reads the loop-local variables of an evolution loop that never ran. -/
def processFin (P : Prims) (kp : KParams) (mem0 : Memory) (aw0 : Awareness)
    (cf0 : CoherenceForce) (w0 : World) (gv0 : Governor)
    (text code : List ℕ) (world : List (String × List ℕ)) (maxSteps : ℕ) :
    Except String LoopState :=
  let c : Ctx := processCtx P kp w0 text code world
  let ls1 := (evolveLoop P c maxSteps (processLs0 P mem0 aw0 cf0 c)).1
  if (judgeQ P gv0 (textQ P text "lang") ls1.current
      (processWorld P w0 world).fld).1.1 = Gov.REBUILD then
    match ls1.lastCoh, ls1.lastAttr with
    | some coh, some attr =>
      Except.ok ((List.range 10).foldl
        (fun st _ => rebuildStep P
          { c with kp := { kp with a := kp.a * (15 / 10) } } coh attr st) ls1)
    | _, _ => Except.error "NameError: free variable in rebuild phase"
  else Except.ok ls1

/-- Core of ASCPI.process over the engine components it actually reads (the
guardian is reset on entry and therefore not an input).  Returns the result
record and all updated components. -/
def processCore (P : Prims) (kp : KParams) (mem0 : Memory) (aw0 : Awareness)
    (cf0 : CoherenceForce) (w0 : World) (gv0 : Governor)
    (text code : List ℕ) (world : List (String × List ℕ)) (maxSteps : ℕ) :
    Except String (ResultQ × Memory × Awareness × CoherenceForce × World ×
      Guardian × Governor × PsiQ) :=
  let psLang := textQ P text "lang"
  let w1 := processWorld P w0 world
  let W := w1.fld
  let c : Ctx := processCtx P kp w0 text code world
  let ls0 : LoopState := processLs0 P mem0 aw0 cf0 c
  let run := evolveLoop P c maxSteps ls0
  let ls1 := run.1
  let jd := judgeQ P gv0 psLang ls1.current W
  let dec := jd.1.1
  let score := jd.1.2
  let gv2 := jd.2
  (processFin P kp mem0 aw0 cf0 w0 gv0 text code world maxSteps).map (fun ls2 =>
    ({ output := ls2.current
       coherence := ls2.current.coh
       maat := score
       awareness := ls2.awareness.fld.coh
       awarenessLevel := levelQ ls2.awareness.fld.coh
       governor := govValue dec
       steps := run.2.length
       signature := P.sigq (vecQ ls2.current) },
      ls2.memory, ls2.awareness, ls2.cf, w1, ls2.guardian, gv2, ls2.current))

/-- ASCPI.process: run the core and fold the updated components back into
the engine, incrementing the top-level step counter. -/
def processQ (P : Prims) (e : EngineState) (text code : List ℕ)
    (world : List (String × List ℕ)) (maxSteps : ℕ) :
    Except String (ResultQ × EngineState) :=
  match processCore P e.kp e.memory e.awareness e.cf e.world e.governor
    text code world maxSteps with
  | Except.error m => Except.error m
  | Except.ok (r, mem, aw, cf, w, gd, gv, fin) =>
    Except.ok (r, { e with
      memory := mem
      awareness := aw
      cf := cf
      world := w
      guardian := gd
      governor := gv
      step := e.step + 1
      current := some fin })

/-- Degenerate primitive instance used to evaluate the embedding on concrete
inputs: every transcendental is the constant zero function, pi is 3, the
space test recognizes the ASCII space, and every codepoint is a letter. -/
def flatPrims : Prims :=
  { sinq := fun _ => 0
    cosq := fun _ => 0
    atan2q := fun _ _ => 0
    tanhq := fun _ => 0
    logq := fun _ => 0
    expq := fun _ => 0
    sqrtq := fun _ => 0
    piq := 3
    phiq := 0
    isspaceq := fun cp => decide (cp = 32)
    catq := fun _ => "Lo"
    sigq := fun _ => "00000000" }

theorem invQ_kernelQ (P : Prims) (kp : KParams) (ps A M : PsiQ)
    (W : Option PsiQ) (gr : ℚ) (hpi : 0 < P.piq) :
    InvQ P (kernelQ P kp ps A M W gr) := by
  unfold kernelQ mkPsi
  exact invQ_enforce P _ hpi

theorem guardEnforce_fst (P : Prims) (g : Guardian) (before after : PsiQ)
    (L : ℚ) : ∃ x, (guardEnforce P g before after L).1 = enforce P x := by
  unfold guardEnforce
  exact ⟨_, rfl⟩

theorem invQ_guardEnforce (P : Prims) (g : Guardian) (before after : PsiQ)
    (L : ℚ) (hpi : 0 < P.piq) :
    InvQ P ((guardEnforce P g before after L).1) := by
  obtain ⟨x, hx⟩ := guardEnforce_fst P g before after L
  rw [hx]
  exact invQ_enforce P x hpi

theorem invQ_textQ (P : Prims) (cs : List ℕ) (srcStr : String)
    (hpi : 0 < P.piq) : InvQ P (textQ P cs srcStr) := by
  unfold textQ
  dsimp only
  split
  · exact invQ_mkPsi P _ _ _ _ _ _ _ hpi
  · exact invQ_mkPsi P _ _ _ _ _ _ _ hpi

theorem invQ_projectQ (P : Prims) (fields : List PsiQ) (hpi : 0 < P.piq) :
    InvQ P (projectQ P fields) := by
  unfold projectQ
  rcases fields with _ | ⟨f, _ | ⟨g, rest⟩⟩
  · exact invQ_enforce P _ hpi
  · exact invQ_enforce P _ hpi
  · exact invQ_enforce P _ hpi

theorem invQ_loopStep (P : Prims) (c : Ctx) (s : LoopState)
    (hpi : 0 < P.piq) : InvQ P (loopStep P c s).current := by
  unfold loopStep
  exact invQ_guardEnforce P _ _ _ _ hpi

theorem invQ_evolveLoop (P : Prims) (c : Ctx) (n : ℕ) (s : LoopState)
    (hpi : 0 < P.piq) (h0 : InvQ P s.current) :
    InvQ P ((evolveLoop P c n s).1).current := by
  induction n generalizing s with
  | zero => exact h0
  | succ n ih =>
    unfold evolveLoop
    dsimp only
    split
    · exact invQ_loopStep P c s hpi
    · exact ih (loopStep P c s) (invQ_loopStep P c s hpi)

theorem invQ_rebuildStep (P : Prims) (c : Ctx) (coh : List (ℚ × ℚ))
    (attr : PsiQ) (s : LoopState) (hpi : 0 < P.piq) :
    InvQ P (rebuildStep P c coh attr s).current := by
  unfold rebuildStep
  exact invQ_guardEnforce P _ _ _ _ hpi

theorem invQ_rebuildFold (P : Prims) (c : Ctx) (coh : List (ℚ × ℚ))
    (attr : PsiQ) (l : List ℕ) (s : LoopState) (hpi : 0 < P.piq)
    (h0 : InvQ P s.current) :
    InvQ P ((l.foldl (fun st _ => rebuildStep P c coh attr st) s).current) := by
  induction l generalizing s with
  | nil => exact h0
  | cons x xs ih =>
    exact ih (rebuildStep P c coh attr s) (invQ_rebuildStep P c coh attr s hpi)

/-- Bound-invariant statement of a process outcome: trivially true on the
error path, the invariants of the output field on the success path. -/
def resultInv (P : Prims) (x : Except String (ResultQ × EngineState)) : Prop :=
  match x with
  | Except.error _ => True
  | Except.ok p => InvQ P p.1.output

theorem invQ_processFin (P : Prims) (kp : KParams) (mem0 : Memory)
    (aw0 : Awareness) (cf0 : CoherenceForce) (w0 : World) (gv0 : Governor)
    (text code : List ℕ) (world : List (String × List ℕ)) (maxSteps : ℕ)
    (hpi : 0 < P.piq) (ls2 : LoopState)
    (h : processFin P kp mem0 aw0 cf0 w0 gv0 text code world maxSteps =
      Except.ok ls2) : InvQ P ls2.current := by
  have hls0 : InvQ P (processLs0 P mem0 aw0 cf0
      (processCtx P kp w0 text code world)).current :=
    invQ_projectQ P _ hpi
  have hls1 : InvQ P ((evolveLoop P (processCtx P kp w0 text code world)
      maxSteps (processLs0 P mem0 aw0 cf0
        (processCtx P kp w0 text code world))).1).current :=
    invQ_evolveLoop P _ _ _ hpi hls0
  unfold processFin at h
  dsimp only at h
  split at h
  · split at h
    · cases h
      exact invQ_rebuildFold P _ _ _ _ _ hpi hls1
    · exact Except.noConfusion h
  · cases h
    exact hls1

theorem invQ_processCore (P : Prims) (kp : KParams) (mem0 : Memory)
    (aw0 : Awareness) (cf0 : CoherenceForce) (w0 : World) (gv0 : Governor)
    (text code : List ℕ) (world : List (String × List ℕ)) (maxSteps : ℕ)
    (hpi : 0 < P.piq) :
    match processCore P kp mem0 aw0 cf0 w0 gv0 text code world maxSteps with
    | Except.error _ => True
    | Except.ok tup => InvQ P tup.1.output := by
  unfold processCore
  dsimp only
  cases hfin : processFin P kp mem0 aw0 cf0 w0 gv0 text code world maxSteps with
  | error m => simp [Except.map]
  | ok ls2 =>
    simp only [Except.map]
    exact invQ_processFin P kp mem0 aw0 cf0 w0 gv0 text code world maxSteps
      hpi ls2 hfin

/-- C1: every field state produced by the public operations of the engine —
direct state construction, the text encoder, the evolution kernel, the
guardian, and the final state returned by process — satisfies the four bound
invariants κ ∈ [0.01, 10], θ ∈ [0, 2π), C ∈ [0, 1], N > 0. -/
theorem C1_bound_invariants (P : Prims) (hpi : 0 < P.piq) :
    (∀ dPhi kap th en coh t src, InvQ P (mkPsi P dPhi kap th en coh t src)) ∧
    (∀ cs srcStr, InvQ P (textQ P cs srcStr)) ∧
    (∀ kp ps A M W gr, InvQ P (kernelQ P kp ps A M W gr)) ∧
    (∀ g before after L, InvQ P ((guardEnforce P g before after L).1)) ∧
    (∀ e text code world maxSteps,
      resultInv P (processQ P e text code world maxSteps)) := by
  refine ⟨fun dPhi kap th en coh t src => invQ_mkPsi P dPhi kap th en coh t src hpi,
    fun cs srcStr => invQ_textQ P cs srcStr hpi,
    fun kp ps A M W gr => invQ_kernelQ P kp ps A M W gr hpi,
    fun g before after L => invQ_guardEnforce P g before after L hpi,
    fun e text code world maxSteps => ?_⟩
  unfold processQ
  have h := invQ_processCore P e.kp e.memory e.awareness e.cf e.world
    e.governor text code world maxSteps hpi
  unfold resultInv
  split
  · trivial
  · rename_i heq
    revert h
    split
    · rename_i heq2
      rw [heq2] at heq
      cases heq
    · rename_i tup heq2
      rw [heq2] at heq
      intro h
      cases heq
      exact h

/-- C1 witness: the invariants hold for a concrete encoded state under the
degenerate primitives. -/
theorem C1_witness :
    (0 : ℚ) < flatPrims.piq ∧
      InvQ flatPrims (textQ flatPrims [72, 105] "lang") :=
  ⟨by norm_num [flatPrims], (C1_bound_invariants flatPrims
    (by norm_num [flatPrims])).2.1 [72, 105] "lang"⟩

/-- C6: for every input state with coherence in [0, 1] the kernel leaves the
coherence unchanged and increments the step counter by exactly one. -/
theorem C6_kernel_frame (P : Prims) (kp : KParams) (ps A M : PsiQ)
    (W : Option PsiQ) (gr : ℚ) (h0 : 0 ≤ ps.coh) (h1 : ps.coh ≤ 1) :
    (kernelQ P kp ps A M W gr).coh = ps.coh ∧
      (kernelQ P kp ps A M W gr).t = ps.t + 1 := by
  unfold kernelQ mkPsi enforce
  refine ⟨?_, rfl⟩
  simp only
  rw [min_eq_right h1, max_eq_right h0]

/-- C6 witness at a concrete state. -/
theorem C6_witness :
    (0 : ℚ) ≤ ({} : PsiQ).coh ∧ ({} : PsiQ).coh ≤ 1 ∧
      (kernelQ flatPrims kDefault {} {} {} none 0).coh = ({} : PsiQ).coh ∧
      (kernelQ flatPrims kDefault {} {} {} none 0).t = ({} : PsiQ).t + 1 :=
  ⟨by norm_num [PsiQ.coh], by norm_num [PsiQ.coh],
    (C6_kernel_frame flatPrims kDefault {} {} {} none 0 (by norm_num [PsiQ.coh])
      (by norm_num [PsiQ.coh])).1,
    (C6_kernel_frame flatPrims kDefault {} {} {} none 0 (by norm_num [PsiQ.coh])
      (by norm_num [PsiQ.coh])).2⟩

theorem fmod_zero (T : ℚ) : fmod 0 T = 0 := by
  unfold fmod
  simp

theorem graphemesGo_all_space (P : Prims) (n : ℕ) :
    ∀ cs : List ℕ, (∀ c ∈ cs, P.isspaceq c = true) →
      graphemesGo P n cs = [] := by
  induction n with
  | zero =>
    intro cs _
    cases cs <;> rfl
  | succ n ih =>
    intro cs h
    cases cs with
    | nil => rfl
    | cons c rest =>
      rw [graphemesGo]
      rw [if_pos (h c (List.mem_cons_self c rest))]
      exact ih rest (fun x hx => h x (List.mem_cons_of_mem c hx))

theorem graphemesQ_all_space (P : Prims) (cs : List ℕ)
    (h : ∀ c ∈ cs, P.isspaceq c = true) : graphemesQ P cs = [] :=
  graphemesGo_all_space P cs.length cs h

theorem textQ_blank (P : Prims) (cs : List ℕ) (srcStr : String)
    (hsp : ∀ c ∈ cs, P.isspaceq c = true) :
    textQ P cs srcStr =
      { dPhi := 0, kap := 1, th := 0, en := 1, coh := 1 / 2, t := 0,
        src := srcStr } := by
  unfold textQ
  rw [graphemesQ_all_space P cs hsp]
  simp only [List.isEmpty_nil, if_pos]
  unfold mkPsi enforce
  simp only [fmod_zero, PsiQ.mk.injEq, and_true, true_and, eq_self_iff_true]
  refine ⟨?_, ?_, ?_⟩
  · rw [abs_one, min_eq_right (by norm_num [kMAX]),
      max_eq_right (by norm_num [kMIN])]
  · rw [max_eq_right (by norm_num [epsq])]
  · rw [min_eq_right (by norm_num), max_eq_right (by norm_num)]

/-- C3 counterexample: encoding the empty string does not return coherence 0
and does not return the energy floor — the defaults of the source are
C = 0.5 and N = 1. -/
theorem C3_empty_default_counterexample :
    (textQ flatPrims [] "lang").coh ≠ 0 ∧
      (textQ flatPrims [] "lang").en ≠ epsq ∧
      (textQ flatPrims [] "lang").coh = 1 / 2 ∧
      (textQ flatPrims [] "lang").en = 1 := by
  rw [textQ_blank flatPrims [] "lang" (by simp)]
  refine ⟨by norm_num, by norm_num [epsq], rfl, rfl⟩

/-- C3 amended: encoding an empty or whitespace-only string returns the
default state exactly — tension 0, curvature 1, phase 0, coherence 0.5,
energy 1. -/
theorem C3_empty_default (P : Prims) (cs : List ℕ) (srcStr : String)
    (hsp : ∀ c ∈ cs, P.isspaceq c = true) :
    textQ P cs srcStr =
      { dPhi := 0, kap := 1, th := 0, en := 1, coh := 1 / 2, t := 0,
        src := srcStr } :=
  textQ_blank P cs srcStr hsp

/-- C3 witness: the amended default-state statement at a whitespace-only
input. -/
theorem C3_witness :
    (∀ c ∈ [32, 32], flatPrims.isspaceq c = true) ∧
      textQ flatPrims [32, 32] "lang" =
        { dPhi := 0, kap := 1, th := 0, en := 1, coh := 1 / 2, t := 0,
          src := "lang" } :=
  ⟨by decide, C3_empty_default flatPrims [32, 32] "lang" (by decide)⟩

/-- C9: for every input codepoint sequence — including empty, whitespace,
combining-mark, regional-indicator and zero-width-joiner sequences — the
text encoder is total and returns a state satisfying all bound invariants;
in the embedding the encoder is a total function, so no exception path
exists. -/
theorem C9_encoder_total (P : Prims) (cs : List ℕ) (srcStr : String)
    (hpi : 0 < P.piq) : InvQ P (textQ P cs srcStr) :=
  invQ_textQ P cs srcStr hpi

/-- C9 witness: the encoder invariants at a zero-width-joiner family emoji,
a regional-indicator flag pair, and an Arabic greeting. -/
theorem C9_witness :
    (0 : ℚ) < flatPrims.piq ∧
      InvQ flatPrims (textQ flatPrims
        [128104, 8205, 128105, 8205, 128103, 8205, 128102] "lang") ∧
      InvQ flatPrims (textQ flatPrims [127466, 127468] "lang") ∧
      InvQ flatPrims (textQ flatPrims [1605, 1585, 1581, 1576, 1575] "lang") :=
  ⟨by norm_num [flatPrims],
    C9_encoder_total flatPrims _ "lang" (by norm_num [flatPrims]),
    C9_encoder_total flatPrims _ "lang" (by norm_num [flatPrims]),
    C9_encoder_total flatPrims _ "lang" (by norm_num [flatPrims])⟩

/-- C2: two freshly constructed engines processing the same text, code and
world inputs produce identical final signatures and identical coherence
values.  The embedding threads every mutable component explicitly, so the
only difference between two fresh engines is the agent identifier, which the
result does not depend on. -/
theorem C2_determinism (P : Prims) (id1 id2 : String) (text code : List ℕ)
    (world : List (String × List ℕ)) (maxSteps : ℕ) :
    (processQ P (engineInit P id1) text code world maxSteps).map
        (fun p => (p.1.signature, p.1.coherence)) =
      (processQ P (engineInit P id2) text code world maxSteps).map
        (fun p => (p.1.signature, p.1.coherence)) := by
  unfold processQ engineInit
  dsimp only
  cases hc : processCore P kDefault (memInit P) (awInit P) cfInit worldInit
    govInit text code world maxSteps with
  | error m => rfl
  | ok tup => rfl

theorem judge_decision (P : Prims) (gv : Governor) (psIn psOut : PsiQ)
    (W : Option PsiQ) :
    (judgeQ P gv psIn psOut W).1.1 = Gov.ALLOW ∨
      (judgeQ P gv psIn psOut W).1.1 = Gov.REBUILD := by
  unfold judgeQ
  dsimp only
  split_ifs <;> simp

/-- Governor statement of a process outcome: trivially true on the error
path, the decision string restricted to allow or rebuild on the success
path. -/
def govOk (x : Except String (ResultQ × EngineState)) : Prop :=
  match x with
  | Except.error _ => True
  | Except.ok p => p.1.governor = "allow" ∨ p.1.governor = "rebuild"

theorem govOk_processCore (P : Prims) (kp : KParams) (mem0 : Memory)
    (aw0 : Awareness) (cf0 : CoherenceForce) (w0 : World) (gv0 : Governor)
    (text code : List ℕ) (world : List (String × List ℕ)) (maxSteps : ℕ) :
    match processCore P kp mem0 aw0 cf0 w0 gv0 text code world maxSteps with
    | Except.error _ => True
    | Except.ok tup => tup.1.governor = "allow" ∨ tup.1.governor = "rebuild" := by
  unfold processCore
  dsimp only
  cases hfin : processFin P kp mem0 aw0 cf0 w0 gv0 text code world maxSteps with
  | error m => simp [Except.map]
  | ok ls2 =>
    simp only [Except.map]
    rcases judge_decision P gv0 (textQ P text "lang")
      ((evolveLoop P (processCtx P kp w0 text code world) maxSteps
        (processLs0 P mem0 aw0 cf0 (processCtx P kp w0 text code world))).1).current
      (processWorld P w0 world).fld with h | h <;>
      rw [h] <;> simp [govValue]

/-- C10: the governor judgment returns only the ALLOW or REBUILD decisions,
never BLOCK, and consequently process never returns a result whose governor
field is the string block. -/
theorem C10_governor_no_block :
    (∀ (P : Prims) (gv : Governor) (psIn psOut : PsiQ) (W : Option PsiQ),
      (judgeQ P gv psIn psOut W).1.1 = Gov.ALLOW ∨
        (judgeQ P gv psIn psOut W).1.1 = Gov.REBUILD) ∧
    (∀ (P : Prims) (e : EngineState) (text code : List ℕ)
      (world : List (String × List ℕ)) (maxSteps : ℕ),
      govOk (processQ P e text code world maxSteps)) := by
  refine ⟨judge_decision, fun P e text code world maxSteps => ?_⟩
  unfold processQ
  have h := govOk_processCore P e.kp e.memory e.awareness e.cf e.world
    e.governor text code world maxSteps
  unfold govOk
  split
  · trivial
  · rename_i p heq
    revert h
    split
    · rename_i heq2
      rw [heq2] at heq
      cases heq
    · rename_i tup heq2
      rw [heq2] at heq
      intro h
      cases heq
      exact h

theorem evolveLoop_len_le (P : Prims) (c : Ctx) :
    ∀ (n : ℕ) (s : LoopState), ((evolveLoop P c n s).2).length ≤ n := by
  intro n
  induction n with
  | zero => intro s; simp [evolveLoop]
  | succ n ih =>
    intro s
    unfold evolveLoop
    dsimp only
    split
    · simp
    · simp only [List.length_cons]
      have := ih (loopStep P c s)
      omega

theorem evolveLoop_ne_nil (P : Prims) (c : Ctx) (n : ℕ) (s : LoopState)
    (h : 1 ≤ n) : (evolveLoop P c n s).2 ≠ [] := by
  cases n with
  | zero => omega
  | succ n =>
    unfold evolveLoop
    dsimp only
    split <;> simp

theorem evolveLoop_early (P : Prims) (c : Ctx) :
    ∀ (n : ℕ) (s : LoopState) (j : ℕ),
      j + 1 < ((evolveLoop P c n s).2).length →
      ((evolveLoop P c n s).2).getD j 0 ≤ 95 / 100 := by
  intro n
  induction n with
  | zero =>
    intro s j h
    simp [evolveLoop] at h
  | succ n ih =>
    intro s j h
    revert h
    unfold evolveLoop
    dsimp only
    split
    · intro h
      simp at h
    · rename_i h95
      intro h
      simp only [List.length_cons] at h
      cases j with
      | zero =>
        simp only [List.getD_cons_zero]
        exact le_of_not_lt h95
      | succ j =>
        simp only [List.getD_cons_succ]
        exact ih (loopStep P c s) j (by omega)

theorem evolveLoop_last (P : Prims) (c : Ctx) :
    ∀ (n : ℕ) (s : LoopState), ((evolveLoop P c n s).2).length < n →
      95 / 100 < ((evolveLoop P c n s).2).getLastD 0 := by
  intro n
  induction n with
  | zero => intro s h; omega
  | succ n ih =>
    intro s h
    revert h
    unfold evolveLoop
    dsimp only
    split
    · rename_i h95
      intro _
      simpa using h95
    · rename_i h95
      intro h
      simp only [List.length_cons] at h
      have hlt : ((evolveLoop P c n (loopStep P c s)).2).length < n := by omega
      have hlast := ih (loopStep P c s) hlt
      have hne : (evolveLoop P c n (loopStep P c s)).2 ≠ [] := by
        apply evolveLoop_ne_nil
        omega
      rw [List.getLastD_cons]
      rcases List.exists_cons_of_ne_nil hne with ⟨a, l, hl⟩
      rw [hl] at hlast ⊢
      rwa [List.getLastD_cons] at hlast ⊢

/-- Trajectory of coherence values recorded by the evolution loop of one
process call. -/
def processTrajectory (P : Prims) (e : EngineState) (text code : List ℕ)
    (world : List (String × List ℕ)) (maxSteps : ℕ) : List ℚ :=
  (evolveLoop P (processCtx P e.kp e.world text code world) maxSteps
    (processLs0 P e.memory e.awareness e.cf
      (processCtx P e.kp e.world text code world))).2

/-- C8: each process call performs at most maxSteps evolution-loop
iterations; the returned steps field equals the number of iterations
actually performed (the trajectory length); every iteration before the last
one left coherence at or below 0.95; and when the loop stopped before
exhausting maxSteps, the last iteration exceeded 0.95. -/
theorem C8_process_steps (P : Prims) (e : EngineState) (text code : List ℕ)
    (world : List (String × List ℕ)) (maxSteps : ℕ) :
    (match processQ P e text code world maxSteps with
     | Except.error _ => True
     | Except.ok p =>
       p.1.steps = (processTrajectory P e text code world maxSteps).length) ∧
    (processTrajectory P e text code world maxSteps).length ≤ maxSteps ∧
    (∀ j, j + 1 < (processTrajectory P e text code world maxSteps).length →
      (processTrajectory P e text code world maxSteps).getD j 0 ≤ 95 / 100) ∧
    ((processTrajectory P e text code world maxSteps).length < maxSteps →
      95 / 100 < (processTrajectory P e text code world maxSteps).getLastD 0) := by
  refine ⟨?_, evolveLoop_len_le P _ maxSteps _,
    fun j => evolveLoop_early P _ maxSteps _ j, evolveLoop_last P _ maxSteps _⟩
  unfold processQ processCore
  dsimp only
  cases hfin : processFin P e.kp e.memory e.awareness e.cf e.world e.governor
    text code world maxSteps with
  | error m => simp [Except.map]
  | ok ls2 =>
    simp only [Except.map]
    rfl

theorem absorbQ_coh_le (P : Prims) (m : Memory) (ps : PsiQ) (rate : ℚ) :
    (absorbQ P m ps rate).Minf.coh ≤ 1 := by
  unfold absorbQ
  dsimp only
  exact enforce_coh_le_one P _

theorem absorbQ_coh_ge (P : Prims) (m : Memory) (ps : PsiQ) (rate : ℚ)
    (h : m.Minf.coh ≤ 1) :
    m.Minf.coh - 1 / 100 ≤ (absorbQ P m ps rate).Minf.coh := by
  unfold absorbQ enforce
  dsimp only
  split
  · dsimp only
    refine le_trans (le_min ?_ ?_) (le_max_right _ _)
    · linarith
    · refine le_trans ?_ (le_max_right _ _)
      linarith
  · dsimp only
    refine le_trans (le_min ?_ ?_) (le_max_right _ _)
    · linarith
    · linarith

/-- Coherence reported after each of a sequence of consecutive absorptions,
beginning with the initial memory state. -/
def absorbSeq (P : Prims) (m0 : Memory) (obs : List (PsiQ × ℚ)) :
    List Memory :=
  obs.scanl (fun m p => absorbQ P m p.1 p.2) m0

/-- C4: along every sequence of consecutive absorb calls the reported memory
coherence never decreases by more than the 1/100 allowance between
consecutive calls (the 0.99 retention factor of the source, INV-1). -/
theorem C4_memory_coherence (P : Prims) (m0 : Memory)
    (obs : List (PsiQ × ℚ)) (h : m0.Minf.coh ≤ 1) :
    (absorbSeq P m0 obs).Chain'
      (fun a b => a.Minf.coh - 1 / 100 ≤ b.Minf.coh) := by
  unfold absorbSeq
  induction obs generalizing m0 with
  | nil => simp
  | cons p rest ih =>
    rw [List.scanl]
    refine List.Chain'.cons' (ih (absorbQ P m0 p.1 p.2) (absorbQ_coh_le P m0 p.1 p.2)) ?_
    intro y hy
    cases rest with
    | nil =>
      simp [List.scanl] at hy
      rw [← hy]
      exact absorbQ_coh_ge P m0 p.1 p.2 h
    | cons q qs =>
      rw [List.scanl] at hy
      simp at hy
      rw [← hy]
      exact absorbQ_coh_ge P m0 p.1 p.2 h

/-- C4 witness: the monotonicity-with-tolerance chain on a concrete
three-step absorption sequence from the fresh memory. -/
theorem C4_witness :
    (memInit flatPrims).Minf.coh ≤ 1 ∧
      (absorbSeq flatPrims (memInit flatPrims)
        [({}, 2 / 10), ({ coh := 9 / 10 }, 2 / 10), ({ coh := 1 / 10 }, 2 / 10)]).Chain'
        (fun a b => a.Minf.coh - 1 / 100 ≤ b.Minf.coh) :=
  ⟨by norm_num [memInit, mkPsi, enforce],
    C4_memory_coherence flatPrims (memInit flatPrims) _
      (by norm_num [memInit, mkPsi, enforce])⟩

/-- Energy component of the guardian output, traced through the copy, the
conservation band, the optional corrective blend, and the final floor. -/
theorem guardEnforce_en (P : Prims) (g : Guardian) (before after : PsiQ)
    (L : ℚ) :
    (guardEnforce P g before after L).1.en =
      max epsq
        (match g.lPrev with
         | some lp =>
           if lp * (13 / 10) < L then
             max epsq ((7 / 10) * before.en + (1 - 7 / 10) *
               (if epsq < before.en then
                 (if 2 / 10 < |max epsq after.en / before.en - 1| then
                   before.en * (1 + (2 / 10) *
                     (if 1 < max epsq after.en / before.en then 1 else -1))
                 else max epsq after.en)
               else max epsq after.en))
           else
             (if epsq < before.en then
               (if 2 / 10 < |max epsq after.en / before.en - 1| then
                 before.en * (1 + (2 / 10) *
                   (if 1 < max epsq after.en / before.en then 1 else -1))
               else max epsq after.en)
             else max epsq after.en)
         | none =>
           (if epsq < before.en then
             (if 2 / 10 < |max epsq after.en / before.en - 1| then
               before.en * (1 + (2 / 10) *
                 (if 1 < max epsq after.en / before.en then 1 else -1))
             else max epsq after.en)
           else max epsq after.en)) := by
  unfold guardEnforce copyQ enforce blendQ mkPsi
  cases g.lPrev with
  | none =>
    dsimp only
    split_ifs <;> rfl
  | some lp =>
    dsimp only
    split_ifs <;> rfl

/-- C7: for every before-state with energy above epsilon, the guardian
returns a state whose energy lies within the 20 percent conservation band
around the before-energy; and whenever the supplied after-energy deviates by
more than the tolerance (and no corrective loss blend fires, as on a fresh
or reset guardian), the energy is rescaled exactly to the boundary of the
band, floored at epsilon. -/
theorem C7_guardian_energy (P : Prims) (g : Guardian) (before after : PsiQ)
    (L : ℚ) (h1 : epsq < before.en) :
    (4 / 5) * before.en ≤ (guardEnforce P g before after L).1.en ∧
    (guardEnforce P g before after L).1.en ≤ (6 / 5) * before.en ∧
    ((match g.lPrev with
      | none => True
      | some lp => L ≤ lp * (13 / 10)) →
      2 / 10 < |max epsq after.en / before.en - 1| →
      (guardEnforce P g before after L).1.en =
        max epsq (before.en * (1 + (2 / 10) *
          (if 1 < max epsq after.en / before.en then 1 else -1)))) := by
  have heps : (0 : ℚ) < epsq := by norm_num [epsq]
  have hE : 0 < before.en := lt_trans heps h1
  have hmax : ∀ x : ℚ, (4 / 5) * before.en ≤ x → x ≤ (6 / 5) * before.en →
      (4 / 5) * before.en ≤ max epsq x ∧ max epsq x ≤ (6 / 5) * before.en := by
    intro x hx1 hx2
    refine ⟨le_trans hx1 (le_max_right _ _), max_le ?_ hx2⟩
    nlinarith
  rw [guardEnforce_en]
  set en3 : ℚ :=
    (if epsq < before.en then
      (if 2 / 10 < |max epsq after.en / before.en - 1| then
        before.en * (1 + (2 / 10) *
          (if 1 < max epsq after.en / before.en then 1 else -1))
      else max epsq after.en)
    else max epsq after.en) with hen3
  have hb1 : (4 / 5) * before.en ≤ en3 ∧ en3 ≤ (6 / 5) * before.en := by
    rw [hen3, if_pos h1]
    split_ifs with hdev hgt
    · constructor <;> nlinarith
    · constructor <;> nlinarith
    · rw [not_lt, abs_le] at hdev
      have hd1 := hdev.1
      have hd2 := hdev.2
      rw [sub_le_iff_le_add] at hd2
      have h2 : max epsq after.en / before.en ≤ 1 / 5 + 1 := by linarith
      have h3 : -(1 / 5) + 1 ≤ max epsq after.en / before.en := by linarith
      rw [div_le_iff₀ hE] at h2
      rw [le_div_iff₀ hE] at h3
      constructor <;> linarith
  have hm1 := hmax en3 hb1.1 hb1.2
  have hsum : (4 / 5) * before.en ≤ (7 / 10) * before.en + (1 - 7 / 10) * en3 ∧
      (7 / 10) * before.en + (1 - 7 / 10) * en3 ≤ (6 / 5) * before.en := by
    constructor <;> nlinarith [hb1.1, hb1.2]
  have hm2 := hmax _ hsum.1 hsum.2
  have hm3 := hmax _ hm2.1 hm2.2
  refine ⟨?_, ?_, ?_⟩
  · cases hgp : g.lPrev with
    | none => exact hm1.1
    | some lp =>
      dsimp only
      split_ifs with hblend
      · exact hm3.1
      · exact hm1.1
  · cases hgp : g.lPrev with
    | none => exact hm1.2
    | some lp =>
      dsimp only
      split_ifs with hblend
      · exact hm3.2
      · exact hm1.2
  · intro hnb hdev
    cases hgp : g.lPrev with
    | none =>
      dsimp only
      rw [hen3, if_pos h1, if_pos hdev]
    | some lp =>
      rw [hgp] at hnb
      dsimp only
      rw [if_neg (not_lt.mpr hnb), hen3, if_pos h1, if_pos hdev]

/-- C7 witness: a fresh guardian rescales a threefold energy jump exactly to
the upper boundary of the conservation band. -/
theorem C7_witness :
    epsq < ({} : PsiQ).en ∧
      (4 / 5) * ({} : PsiQ).en ≤
        (guardEnforce flatPrims guardInit {} { en := 10 } 0).1.en ∧
      (guardEnforce flatPrims guardInit {} { en := 10 } 0).1.en ≤
        (6 / 5) * ({} : PsiQ).en ∧
      (guardEnforce flatPrims guardInit {} { en := 10 } 0).1.en =
        max epsq (({} : PsiQ).en * (1 + (2 / 10) *
          (if 1 < max epsq ({ en := 10 } : PsiQ).en / ({} : PsiQ).en
           then 1 else -1))) := by
  have h1 : epsq < ({} : PsiQ).en := by
    show epsq < 1
    norm_num [epsq]
  have hdev : 2 / 10 < |max epsq ({ en := 10 } : PsiQ).en / ({} : PsiQ).en - 1| := by
    show (2 : ℚ) / 10 < |max epsq 10 / 1 - 1|
    rw [max_eq_right (by norm_num [epsq] : epsq ≤ (10 : ℚ))]
    norm_num
  have ht := C7_guardian_energy flatPrims guardInit {} { en := 10 } 0 h1
  exact ⟨h1, ht.1, ht.2.1, ht.2.2 trivial hdev⟩

theorem kernelQ_th (P : Prims) (kp : KParams) (ps A M : PsiQ)
    (W : Option PsiQ) (gr : ℚ) (hT : 0 < tau P) :
    (kernelQ P kp ps A M W gr).th =
      fmod (ps.th + kernelShift P kp ps A M W) (tau P) := by
  unfold kernelQ mkPsi enforce
  dsimp only
  exact fmod_fmod _ _ hT

theorem clamp_half (p K y : ℚ) (hK : K = 1 / 2) (hy : |y| ≤ 1)
    (hp : 1 ≤ p) : |max (-(p / 2)) (min (p / 2) (K * y))| ≤ 1 / 2 := by
  have habs : |K * y| ≤ 1 / 2 := by
    rw [hK, abs_mul, abs_of_pos (by norm_num : (0 : ℚ) < 1 / 2)]
    nlinarith [abs_nonneg y]
  have h0 := abs_le.mp habs
  rw [min_eq_right (by linarith), max_eq_right (by linarith)]
  exact habs

theorem kernelShift_abs (P : Prims) (kp : KParams) (ps A M : PsiQ)
    (W : Option PsiQ) (Hsin : ∀ x, |P.sinq x| ≤ 1) (hK : kp.K = 1 / 2)
    (hpi : 1 ≤ P.piq) : |kernelShift P kp ps A M W| ≤ 1 / 2 := by
  unfold kernelShift
  dsimp only
  exact clamp_half P.piq kp.K _ hK (Hsin _) hpi

theorem awField2_coh (P : Prims) (aw : Awareness) (ps M : PsiQ)
    (W : Option PsiQ) :
    0 ≤ (awField2 P aw ps M W).coh ∧ (awField2 P aw ps M W).coh ≤ 1 := by
  unfold awField2
  dsimp only
  exact ⟨enforce_coh_nonneg P _, enforce_coh_le_one P _⟩

theorem awStab_bound (P : Prims) (aw : Awareness) (ps M : PsiQ)
    (W : Option PsiQ) (Hsin : ∀ x, |P.sinq x| ≤ 1) (hpi : 1 ≤ P.piq)
    (h0 : 0 ≤ ps.th) (h1 : ps.th < tau P) :
    circDist (tau P) (awStabTheta P aw ps M W) ps.th ≤ 1 / 10 ∧
      0 ≤ awStabTheta P aw ps M W ∧ awStabTheta P aw ps M W < tau P := by
  have hT : 0 < tau P := lt_of_le_of_lt h0 h1
  have hcopy : (copyQ P ps).th = ps.th := by
    unfold copyQ enforce
    dsimp only
    exact fmod_eq_self h0 h1
  unfold awStabTheta
  rw [hcopy]
  split_ifs with hc
  · have hC := awField2_coh P aw ps M W
    have hcorr : |(1 / 10) * (awField2 P aw ps M W).coh *
        P.sinq (M.th - ps.th)| ≤ 1 / 10 := by
      rw [abs_mul, abs_mul, abs_of_pos (by norm_num : (0 : ℚ) < 1 / 10),
        abs_of_nonneg hC.1]
      nlinarith [Hsin (M.th - ps.th), abs_nonneg (P.sinq (M.th - ps.th)), hC.2]
    have hhalf : |(1 / 10) * (awField2 P aw ps M W).coh *
        P.sinq (M.th - ps.th)| ≤ tau P / 2 := by
      refine le_trans hcorr ?_
      unfold tau
      linarith
    exact ⟨le_trans (circDist_fmod_add h0 h1 hhalf) hcorr,
      fmod_nonneg _ hT, fmod_lt _ hT⟩
  · refine ⟨?_, h0, h1⟩
    rw [circDist_self _ _ (le_of_lt hT)]
    norm_num

theorem blendAngle_fmod (P : Prims) (a x y : ℚ) (hT : 0 < tau P) :
    fmod (blendAngle P a x y) (tau P) = blendAngle P a x y := by
  unfold blendAngle
  exact fmod_fmod _ _ hT

theorem blendAngle_mem (P : Prims) (a x y : ℚ) (hT : 0 < tau P) :
    0 ≤ blendAngle P a x y ∧ blendAngle P a x y < tau P := by
  unfold blendAngle
  exact ⟨fmod_nonneg _ hT, fmod_lt _ hT⟩

/-- Phase component of the guardian output: when both representatives live
in [0, τ) and the incoming phase change is within 3/5, the clip cannot fire
and the result phase stays within 3/5 of the after-phase (directly when no
corrective blend fires, through the circular interpolation bound when it
does). -/
theorem guardEnforce_th_bound (P : Prims) (g : Guardian) (before after : PsiQ)
    (L : ℚ) (hpi : 3 ≤ P.piq)
    (hb0 : 0 ≤ before.th) (hbT : before.th < tau P)
    (hr0 : 0 ≤ after.th) (hrT : after.th < tau P)
    (hd : circDist (tau P) after.th before.th ≤ 3 / 5)
    (HB : circDist (tau P) (blendAngle P (7 / 10) before.th after.th)
      after.th ≤ circDist (tau P) before.th after.th) :
    circDist (tau P) ((guardEnforce P g before after L).1.th) after.th ≤ 3 / 5 ∧
      0 ≤ (guardEnforce P g before after L).1.th ∧
      (guardEnforce P g before after L).1.th < tau P := by
  have hT : 0 < tau P := by
    unfold tau
    linarith
  have hfa : fmod after.th (tau P) = after.th := fmod_eq_self hr0 hrT
  have habd : |after.th - before.th| < tau P := by
    rcases abs_cases (after.th - before.th) with ⟨he, _⟩ | ⟨he, _⟩ <;> rw [he] <;>
      linarith
  have hwrap : (if P.piq < |after.th - before.th| then
      tau P - |after.th - before.th| else |after.th - before.th|) =
      circDist (tau P) after.th before.th := by
    unfold circDist
    rcases le_or_lt |after.th - before.th| P.piq with hle | hlt
    · rw [if_neg (not_lt.mpr hle), min_eq_left]
      unfold tau
      linarith
    · rw [if_pos hlt, min_eq_right]
      unfold tau
      linarith
  have hclip : ¬ (P.piq / 2 < (if P.piq < |after.th - before.th| then
      tau P - |after.th - before.th| else |after.th - before.th|)) := by
    rw [hwrap]
    intro hcon
    linarith
  have hbd : circDist (tau P) (blendAngle P (7 / 10) before.th after.th)
      after.th ≤ 3 / 5 := by
    refine le_trans HB (le_trans (le_of_eq (circDist_symm _ _ _)) hd)
  have hself : circDist (tau P) after.th after.th = 0 :=
    circDist_self _ _ (le_of_lt hT)
  unfold guardEnforce copyQ enforce blendQ mkPsi
  cases g.lPrev with
  | none =>
    dsimp only
    simp only [apply_ite PsiQ.th, ite_self, hfa]
    simp only [if_neg hclip]
    simp only [hfa]
    refine ⟨?_, hr0, hrT⟩
    rw [hself]
    norm_num
  | some lp =>
    dsimp only
    simp only [apply_ite PsiQ.th, ite_self, hfa]
    simp only [if_neg hclip]
    split_ifs <;>
      first
        | (unfold enforce
           dsimp only
           rw [fmod_fmod _ _ hT, blendAngle_fmod P _ _ _ hT]
           exact ⟨hbd, (blendAngle_mem P _ _ _ hT).1,
             (blendAngle_mem P _ _ _ hT).2⟩)
        | (simp only [hfa]
           refine ⟨?_, hr0, hrT⟩
           rw [hself]
           norm_num)

theorem stepBefore_th (P : Prims) (s : LoopState) :
    (stepBefore P s).th = fmod s.current.th (tau P) := rfl

theorem stepCur1_th (P : Prims) (c : Ctx) (s : LoopState) :
    (stepCur1 P c s).th = (stepOut P c s).th := rfl

theorem stepStab_th (P : Prims) (c : Ctx) (s : LoopState) :
    (stepStab P c s).th =
      awStabTheta P s.awareness (stepCur1 P c s) (stepMem P c s).Minf c.W := rfl

theorem loopStep_current_th (P : Prims) (c : Ctx) (s : LoopState) :
    (loopStep P c s).current.th =
      (guardEnforce P s.guardian (stepBefore P s) (stepStab P c s)
        (stepL P c s)).1.th := rfl

/-- C5: during any run of the evolution loop the wrapped phase difference
between two consecutive kernel output states never exceeds π/2.  The kernel
clamps its Kuramoto phase shift to the phase-continuity bound (and with the
coupling constant K = 0.5 the shift is at most 1/2), the awareness
correction moves the phase by at most 1/10, and the guardian clips any
residual phase change back to the bound; the single analytic fact needed
about the circular interpolation of the guardian blend — that it lands no
farther from the after-phase than the before-phase is — is taken as the
hypothesis HB on the atan2 primitive at the one point where it is used. -/
theorem C5_phase_continuity (P : Prims) (c1 c2 : Ctx) (s : LoopState)
    (Hsin : ∀ x, |P.sinq x| ≤ 1)
    (hK1 : c1.kp.K = 1 / 2) (hK2 : c2.kp.K = 1 / 2)
    (hpi : 3 ≤ P.piq) (h0 : 0 ≤ s.current.th) (h1 : s.current.th < tau P)
    (HB : circDist (tau P)
        (blendAngle P (7 / 10) (stepBefore P s).th (stepStab P c1 s).th)
        (stepStab P c1 s).th ≤
      circDist (tau P) (stepBefore P s).th (stepStab P c1 s).th) :
    circDist (tau P) (stepOut P c2 (loopStep P c1 s)).th (stepOut P c1 s).th
      ≤ P.piq / 2 := by
  have hpi1 : 1 ≤ P.piq := by linarith
  have hT : 0 < tau P := by
    unfold tau
    linarith
  have hout1 : (stepOut P c1 s).th = fmod (s.current.th +
      kernelShift P c1.kp s.current (stepAttr P s) s.memory.Minf c1.W)
      (tau P) := by
    unfold stepOut
    exact kernelQ_th P c1.kp s.current (stepAttr P s) s.memory.Minf c1.W _ hT
  have hsh1 := kernelShift_abs P c1.kp s.current (stepAttr P s)
    s.memory.Minf c1.W Hsin hK1 hpi1
  have hhalf1 : |kernelShift P c1.kp s.current (stepAttr P s)
      s.memory.Minf c1.W| ≤ tau P / 2 := by
    refine le_trans hsh1 ?_
    unfold tau
    linarith
  have d1 : circDist (tau P) (stepOut P c1 s).th s.current.th ≤ 1 / 2 := by
    rw [hout1]
    exact le_trans (circDist_fmod_add h0 h1 hhalf1) hsh1
  have hout1mem : 0 ≤ (stepOut P c1 s).th ∧ (stepOut P c1 s).th < tau P := by
    rw [hout1]
    exact ⟨fmod_nonneg _ hT, fmod_lt _ hT⟩
  have hstab := awStab_bound P s.awareness (stepCur1 P c1 s)
    (stepMem P c1 s).Minf c1.W Hsin hpi1
    (by rw [stepCur1_th]; exact hout1mem.1)
    (by rw [stepCur1_th]; exact hout1mem.2)
  rw [stepCur1_th P c1 s] at hstab
  have d2 : circDist (tau P) (stepStab P c1 s).th (stepOut P c1 s).th
      ≤ 1 / 10 := by
    rw [stepStab_th]
    exact hstab.1
  have hstabmem : 0 ≤ (stepStab P c1 s).th ∧
      (stepStab P c1 s).th < tau P := by
    rw [stepStab_th]
    exact ⟨hstab.2.1, hstab.2.2⟩
  have hbth : (stepBefore P s).th = s.current.th := by
    rw [stepBefore_th]
    exact fmod_eq_self h0 h1
  have d3 : circDist (tau P) (stepStab P c1 s).th s.current.th ≤ 3 / 5 := by
    have ht1 := circDist_triangle (T := tau P) (stepStab P c1 s).th
      (stepOut P c1 s).th s.current.th hstabmem.1 hstabmem.2
      hout1mem.1 hout1mem.2 h0 h1
    linarith
  have hg := guardEnforce_th_bound P s.guardian (stepBefore P s)
    (stepStab P c1 s) (stepL P c1 s) hpi
    (by rw [hbth]; exact h0) (by rw [hbth]; exact h1)
    hstabmem.1 hstabmem.2 (by rw [hbth]; exact d3) HB
  have hgmem : 0 ≤ (loopStep P c1 s).current.th ∧
      (loopStep P c1 s).current.th < tau P := by
    rw [loopStep_current_th]
    exact ⟨hg.2.1, hg.2.2⟩
  have d5 : circDist (tau P) (loopStep P c1 s).current.th
      (stepOut P c1 s).th ≤ 7 / 10 := by
    have ht2 := circDist_triangle (T := tau P) (loopStep P c1 s).current.th
      (stepStab P c1 s).th (stepOut P c1 s).th hgmem.1 hgmem.2
      hstabmem.1 hstabmem.2 hout1mem.1 hout1mem.2
    have hga : circDist (tau P) (loopStep P c1 s).current.th
        (stepStab P c1 s).th ≤ 3 / 5 := by
      rw [loopStep_current_th]
      exact hg.1
    linarith
  have hout2 : (stepOut P c2 (loopStep P c1 s)).th =
      fmod ((loopStep P c1 s).current.th +
        kernelShift P c2.kp (loopStep P c1 s).current
          (stepAttr P (loopStep P c1 s)) (loopStep P c1 s).memory.Minf c2.W)
      (tau P) := by
    unfold stepOut
    exact kernelQ_th P c2.kp (loopStep P c1 s).current
      (stepAttr P (loopStep P c1 s)) (loopStep P c1 s).memory.Minf c2.W _ hT
  have hsh2 := kernelShift_abs P c2.kp (loopStep P c1 s).current
    (stepAttr P (loopStep P c1 s)) (loopStep P c1 s).memory.Minf c2.W
    Hsin hK2 hpi1
  have hhalf2 : |kernelShift P c2.kp (loopStep P c1 s).current
      (stepAttr P (loopStep P c1 s)) (loopStep P c1 s).memory.Minf c2.W|
      ≤ tau P / 2 := by
    refine le_trans hsh2 ?_
    unfold tau
    linarith
  have d6 : circDist (tau P) (stepOut P c2 (loopStep P c1 s)).th
      (loopStep P c1 s).current.th ≤ 1 / 2 := by
    rw [hout2]
    exact le_trans (circDist_fmod_add hgmem.1 hgmem.2 hhalf2) hsh2
  have hout2mem : 0 ≤ (stepOut P c2 (loopStep P c1 s)).th ∧
      (stepOut P c2 (loopStep P c1 s)).th < tau P := by
    rw [hout2]
    exact ⟨fmod_nonneg _ hT, fmod_lt _ hT⟩
  have ht3 := circDist_triangle (T := tau P)
    (stepOut P c2 (loopStep P c1 s)).th (loopStep P c1 s).current.th
    (stepOut P c1 s).th hout2mem.1 hout2mem.2 hgmem.1 hgmem.2
    hout1mem.1 hout1mem.2
  linarith

/-- Concrete loop context used to exercise the phase-continuity theorem. -/
def c5ctx : Ctx := { kp := kDefault, psLang := {}, psCode := none, W := none }

/-- Concrete loop state used to exercise the phase-continuity theorem. -/
def c5state : LoopState :=
  { current := {}, memory := memInit flatPrims, awareness := awInit flatPrims,
    cf := cfInit, guardian := guardInit, lastCoh := none, lastAttr := none }

/-- C5 witness: the phase bound between the first two kernel outputs of a
concrete run under the degenerate primitives, with every hypothesis
discharged at that input. -/
theorem C5_witness :
    c5ctx.kp.K = 1 / 2 ∧
      (3 : ℚ) ≤ flatPrims.piq ∧
      (0 : ℚ) ≤ c5state.current.th ∧
      c5state.current.th < tau flatPrims ∧
      circDist (tau flatPrims)
          (blendAngle flatPrims (7 / 10) (stepBefore flatPrims c5state).th
            (stepStab flatPrims c5ctx c5state).th)
          (stepStab flatPrims c5ctx c5state).th ≤
        circDist (tau flatPrims) (stepBefore flatPrims c5state).th
          (stepStab flatPrims c5ctx c5state).th ∧
      circDist (tau flatPrims)
          (stepOut flatPrims c5ctx (loopStep flatPrims c5ctx c5state)).th
          (stepOut flatPrims c5ctx c5state).th ≤ flatPrims.piq / 2 := by
  have hsin : ∀ x, |flatPrims.sinq x| ≤ 1 := by
    intro x
    norm_num [flatPrims]
  have hat : ∀ x y, flatPrims.atan2q x y = 0 := fun _ _ => rfl
  have hth0 : c5state.current.th = 0 := rfl
  have hpi3 : (3 : ℚ) ≤ flatPrims.piq := le_refl 3
  have h0 : (0 : ℚ) ≤ c5state.current.th := by
    rw [hth0]
  have h1 : c5state.current.th < tau flatPrims := by
    rw [hth0]
    norm_num [tau, flatPrims]
  have ha : (stepBefore flatPrims c5state).th = 0 := by
    rw [stepBefore_th, hth0]
    exact fmod_zero _
  have hblend0 : blendAngle flatPrims (7 / 10) (stepBefore flatPrims c5state).th
      (stepStab flatPrims c5ctx c5state).th = 0 := by
    unfold blendAngle
    rw [hat]
    exact fmod_zero _
  have hb : circDist (tau flatPrims)
      (blendAngle flatPrims (7 / 10) (stepBefore flatPrims c5state).th
        (stepStab flatPrims c5ctx c5state).th)
      (stepStab flatPrims c5ctx c5state).th ≤
      circDist (tau flatPrims) (stepBefore flatPrims c5state).th
        (stepStab flatPrims c5ctx c5state).th := by
    rw [hblend0, ha]
  exact ⟨rfl, hpi3, h0, h1, hb,
    C5_phase_continuity flatPrims c5ctx c5ctx c5state hsin rfl rfl hpi3 h0 h1 hb⟩

end SFT
